import Mathlib

/-!
Verification development for the Neural Search Engine query-orchestration
pipeline (backend Express route `POST /api/query`, the vector-search service,
the intent detector, the metadata handler and the shared RAG constants).

Shallow embedding conventions:
* Similarity scores are modelled as rationals (`ℚ`).  The vector store is
  modelled as a list of points, each carrying the similarity score it would
  report for the (fixed) request embedding; `qdrant.search` returns the
  filtered points sorted by similarity descending and truncated to the limit,
  with a score attached, while `qdrant.scroll` returns filtered points in
  store order without a score — exactly the shapes the TypeScript code
  observes on the `@qdrant/js-client-rest` client.
* External collaborators (the embedding provider, the Groq LLM calls in
  `generateLLMAnswer` / `mergeLLMAnswers`, and the résumé name-extraction
  regex) are parameters of the orchestrator; a failing external call is an
  `Except.error`, mirroring a rejected promise caught by the route's
  catch-all handler.
* JavaScript truthiness on optional payload fields is modelled with
  `Option String` (`none` = `undefined`), and `x || d` becomes an explicit
  match that also sends `""` to the default.
-/

namespace NeuralSearch

/-! ### String primitives

Kernel-computable counterparts of the JavaScript string operations the
backend uses (`toLowerCase`, `trim`, whitespace collapsing, `join`,
`slice`); each is an elementwise traversal of the character list. -/

/-- JS `toLowerCase` (ASCII-faithful). -/
def strLower (s : String) : String := ⟨s.data.map Char.toLower⟩

/-- JS `trim`. -/
def strTrim (s : String) : String :=
  ⟨(((s.data.dropWhile Char.isWhitespace).reverse).dropWhile Char.isWhitespace).reverse⟩

/-- JS `slice(0, n)` on strings. -/
def strTake (s : String) (n : Nat) : String := ⟨s.data.take n⟩

/-- JS `Array.prototype.join(sep)`. -/
def joinSep (sep : String) : List String → String
  | [] => ""
  | [x] => x
  | x :: xs => x ++ sep ++ joinSep sep xs

/-- Maximal whitespace-separated tokens of a character list (`cur` is the
reversed token in progress). -/
def wsTokens (cur : List Char) : List Char → List (List Char)
  | [] => if cur.isEmpty then [] else [cur.reverse]
  | c :: cs =>
      if c.isWhitespace then
        if cur.isEmpty then wsTokens [] cs else cur.reverse :: wsTokens [] cs
      else wsTokens (c :: cur) cs

/-- Code-point lexicographic strict order on character lists (the embedding
of the route's `localeCompare`-based comparison). -/
def charListLt : List Char → List Char → Bool
  | [], [] => false
  | [], _ :: _ => true
  | _ :: _, [] => false
  | c :: cs, d :: ds =>
      if c.toNat < d.toNat then true
      else if d.toNat < c.toNat then false
      else charListLt cs ds

/-- Strict lexicographic order on strings. -/
def strLtB (s t : String) : Bool := charListLt s.data t.data

/-- The default minimum retrieval score `0.15` (as the reduced rational
`3/20`). -/
def MIN_SCORE_DEFAULT : ℚ := ⟨3, 20, by decide, by decide⟩

/-- Payload stored with a point in the `documents` collection.  Fields are
optional because the route code consistently guards them
(`r.payload?.doc_id`, `?? 0`, `|| ""`). -/
structure Payload where
  text : Option String
  doc_id : Option String
  source_file : Option String
  chunk_index : Option Int
  deriving DecidableEq

/-- A stored point of the vector store together with the similarity score the
store would report for the current request embedding. -/
structure Point where
  id : String
  sim : ℚ
  payload : Payload
  deriving DecidableEq

/-- The whole content of the `documents` collection. -/
abbrev VectorDB := List Point

/-- A point as returned by `qdrant.search` (carries a score). -/
structure ScoredPoint where
  id : String
  score : ℚ
  payload : Payload
  deriving DecidableEq

/-- A point as returned by `qdrant.scroll` (no score). -/
structure RawPoint where
  id : String
  payload : Payload
  deriving DecidableEq

/-- Shape of the objects `vectorSearch` returns to the route
(`{ id, score, payload }`); `score` is absent on scroll-fetched points. -/
structure SearchResult where
  id : String
  score : Option ℚ
  payload : Payload
  deriving DecidableEq

/-- A filter value: Qdrant `match: { value }` vs `match: { any: [...] }`,
built from a `string | string[]` field of `VectorSearchFilters`. -/
inductive FVal
  | str (s : String)
  | arr (l : List String)
  deriving DecidableEq

/-- The `VectorSearchFilters` type of the vector-search service. -/
structure VectorSearchFilters where
  source_file : Option FVal
  doc_id : Option FVal
  deriving DecidableEq

/-- The empty filters object `{}`. -/
def noFilters : VectorSearchFilters := ⟨none, none⟩

/-- A Qdrant `must` condition, as built by `buildMatchCondition` or inline in
the scroll calls. -/
inductive Cond
  | docId (v : FVal)
  | sourceFile (v : FVal)
  | chunkIndex (n : Int)
  deriving DecidableEq

/-- Whether a payload satisfies one match condition.  A missing payload key
never matches (Qdrant semantics). -/
def matchesCond (p : Payload) : Cond → Bool
  | .docId (.str s) => p.doc_id = some s
  | .docId (.arr l) =>
      match p.doc_id with
      | some v => l.contains v
      | none => false
  | .sourceFile (.str s) => p.source_file = some s
  | .sourceFile (.arr l) =>
      match p.source_file with
      | some v => l.contains v
      | none => false
  | .chunkIndex n => p.chunk_index = some n

/-- The vector-store client interface the backend uses: similarity search
(scored, sorted) and scroll (unscored listing). -/
structure Store where
  search : Nat → List Cond → List ScoredPoint
  scroll : Nat → List Cond → List RawPoint

/-- Similarity-descending order used by the store when answering a search. -/
def simGe (a b : Point) : Prop := b.sim ≤ a.sim

instance : DecidableRel simGe := fun a b => inferInstanceAs (Decidable (b.sim ≤ a.sim))

/-- `qdrant.search`: filtered points, sorted by similarity descending,
truncated to `limit`, each with its score. -/
def qdrantSearch (db : VectorDB) (limit : Nat) (conds : List Cond) : List ScoredPoint :=
  ((List.insertionSort simGe (db.filter fun p => conds.all (matchesCond p.payload))).take
      limit).map fun p => ⟨p.id, p.sim, p.payload⟩

/-- `qdrant.scroll`: filtered points in store order, truncated to `limit`,
without scores. -/
def qdrantScroll (db : VectorDB) (limit : Nat) (conds : List Cond) : List RawPoint :=
  ((db.filter fun p => conds.all (matchesCond p.payload)).take limit).map
    fun p => ⟨p.id, p.payload⟩

/-- The store backed by a concrete collection content. -/
def dbStore (db : VectorDB) : Store := ⟨qdrantSearch db, qdrantScroll db⟩

/-- Keep the first occurrence of each key, preserving order (JS
`Map.has`-guarded insertion). -/
def dedupFirstByAux {α β : Type} (key : α → β) [DecidableEq β] :
    List β → List α → List α
  | _, [] => []
  | seen, x :: xs =>
      if key x ∈ seen then dedupFirstByAux key seen xs
      else x :: dedupFirstByAux key (key x :: seen) xs

/-- First-occurrence deduplication by a key function. -/
def dedupFirstBy {α β : Type} (key : α → β) [DecidableEq β] (l : List α) : List α :=
  dedupFirstByAux key [] l

/-- First-occurrence deduplication of strings (JS `Array.from(new Set(...))`). -/
def dedupFirst (l : List String) : List String := dedupFirstBy id l

/-- Lift a scored search hit to the result shape (`score` present). -/
def scoredToResult (p : ScoredPoint) : SearchResult := ⟨p.id, some p.score, p.payload⟩

/-- Lift a scroll point to the result shape (`score` absent). -/
def rawToResult (p : RawPoint) : SearchResult := ⟨p.id, none, p.payload⟩

/-- The vector-search service (`vectorSearch` in
`vector-search.service.ts`): balanced per-document semantic search when the
`doc_id` filter is an array, plain filtered search otherwise; header-chunk
(`chunk_index == 0`) scroll retrieval; merge with first-occurrence
deduplication by point id; optional score-threshold filtering (`-1` = off,
the route always uses the default). -/
def vectorSearch (store : Store) (topK : Nat) (filters : VectorSearchFilters)
    (scoreThreshold : ℚ) : List SearchResult :=
  let mustConditions : List Cond :=
    (match filters.source_file with
     | some v => [Cond.sourceFile v]
     | none => []) ++
    (match filters.doc_id with
     | some v => [Cond.docId v]
     | none => [])
  let semanticResults : List SearchResult :=
    match filters.doc_id with
    | some (.arr docIds) =>
        let perDocK := max 1 (topK / docIds.length)
        docIds.flatMap fun d =>
          (store.search perDocK [Cond.docId (.str d)]).map scoredToResult
    | _ => (store.search topK mustConditions).map scoredToResult
  let headerPoints : List SearchResult :=
    match filters.doc_id with
    | some (.arr docIds) =>
        docIds.filterMap fun d =>
          ((store.scroll 1 [Cond.docId (.str d), Cond.chunkIndex 0]).head?).map rawToResult
    | _ =>
        (((store.scroll 1 (mustConditions ++ [Cond.chunkIndex 0])).head?).map rawToResult).toList
  let mergedResults := dedupFirstBy (fun r => r.id) (semanticResults ++ headerPoints)
  if scoreThreshold ≤ 0 then mergedResults
  else mergedResults.filter fun p => decide (scoreThreshold ≤ p.score.getD 1)

/-! ## Shared constants (`config/constants.ts`) -/

/-- Substring occurrence test on character lists (JS `String.includes`). -/
def subAt : List Char → List Char → Bool
  | [], _ => true
  | _ :: _, [] => false
  | c :: cs, d :: ds => c = d && subAt cs ds

/-- Whether `sub` occurs as a contiguous run inside `l`. -/
def hasSubList (sub : List Char) : List Char → Bool
  | [] => subAt sub []
  | c :: cs => subAt sub (c :: cs) || hasSubList sub cs

/-- JS `s.includes(sub)`. -/
def strHasSub (s sub : String) : Bool := hasSubList sub.data s.data

/-- `FALLBACK_PHRASES`: phrases that indicate the LLM could not find an
answer. -/
def FALLBACK_PHRASES : List String :=
  ["do not contain", "i don\x27t know", "cannot find", "no information"]

/-- `INVALID_NAME_PATTERNS`: denylist for the résumé name-extraction
fallback. -/
def INVALID_NAME_PATTERNS : List String :=
  ["SQL", "HTML", "CSS", "JAVA", "PYTHON", "JAVASCRIPT", "REACT", "NODE",
   "API", "HTTP", "JSON"]

/-- `isAnswerNotFound`: an empty answer, or one whose lowercase form contains
any fallback phrase, counts as "not found". -/
def isAnswerNotFound (answer : String) : Bool :=
  if answer = "" then true
  else FALLBACK_PHRASES.any fun phrase => strHasSub (strLower answer) phrase

/-- The canonical fallback answer string used throughout the route. -/
def FALLBACK_ANSWER : String := "The uploaded documents do not contain this information."

/-! ## Intent detection (`intent-detector.service.ts`)

The seven metadata regexes are abstracted as a list of boolean predicates on
the trimmed, lowercased query (each TS pattern is a case-insensitive regex
`test`); the detector's control flow is translated exactly. -/

inductive QueryIntent
  | metadata
  | content
  deriving DecidableEq

/-- `detectQueryIntent`: empty input is `content`; otherwise `metadata` iff
some metadata pattern matches the trimmed lowercased query. -/
def detectQueryIntent (patterns : List (String → Bool)) (query : String) : QueryIntent :=
  if query = "" then .content
  else
    let normalized := strLower (strTrim query)
    if normalized = "" then .content
    else if patterns.any fun p => p normalized then .metadata
    else .content

/-! ## Metadata handler (`metadata-handler.service.ts`) -/

/-- `DocumentMetadata`: one entry per document, from its header chunk. -/
structure DocumentMetadata where
  doc_id : String
  source_file : Option String
  deriving DecidableEq

/-- Insert into a JS `Map`-like association list: overwrite the value in
place when the key exists, append otherwise. -/
def mapUpsert {α : Type} : List (String × α) → String → α → List (String × α)
  | [], k, v => [(k, v)]
  | (k', v') :: rest, k, v =>
      if k' = k then (k', v) :: rest else (k', v') :: mapUpsert rest k v

/-- `getDocumentMetadata`: scroll all header chunks (`chunk_index == 0`,
limit 100), project `doc_id`/`source_file`, drop entries with a falsy
`doc_id`, and deduplicate by `doc_id` via a JS `Map` (first-occurrence
order, last-occurrence value). -/
def getDocumentMetadata (store : Store) : List DocumentMetadata :=
  let points := store.scroll 100 [Cond.chunkIndex 0]
  let metadata : List DocumentMetadata := points.filterMap fun p =>
    match p.payload.doc_id with
    | some s => if s = "" then none else some ⟨s, p.payload.source_file⟩
    | none => none
  (metadata.foldl (fun acc d => mapUpsert acc d.doc_id d) []).map Prod.snd

/-! ## Route-level data shapes (`types.ts`) -/

/-- `RAGChunk`: what the route hands to the LLM for each retrieved chunk. -/
structure RAGChunk where
  text : String
  doc_id : Option String
  source_file : Option String
  score : Option ℚ
  deriving DecidableEq

/-- `PerDocumentAnswer`: output of one Map-phase task. -/
structure PerDocumentAnswer where
  doc_id : String
  source_file : String
  answer : String
  chunk_count : Nat
  deriving DecidableEq

/-- `DocumentSource`: deduplicated source attribution entry. -/
structure DocumentSource where
  doc_id : Option String
  source_file : Option String
  deriving DecidableEq

/-- Per-chunk debug preview entry. -/
structure DebugChunk where
  chunk : Nat
  doc_id : Option String
  source_file : Option String
  score : Option ℚ
  preview : String
  deriving DecidableEq

/-- Debug retrieval parameters. -/
structure RetrievalDebug where
  scope : String
  topK : Int
  filters : VectorSearchFilters
  deriving DecidableEq

/-- Debug payload (only outside production and on request). -/
structure DebugInfo where
  retrieval : RetrievalDebug
  chunks : List DebugChunk
  deriving DecidableEq

/-- `QueryResponse` (content branch). -/
structure QueryResponse where
  query : String
  scope : String
  answer : String
  sources : List DocumentSource
  debug : Option DebugInfo
  deriving DecidableEq

/-- `MetadataQueryResponse` (metadata branch). -/
structure MetadataQueryResponse where
  query : String
  intent : String
  documents : List DocumentMetadata
  count : Nat
  deriving DecidableEq

/-- The route's possible HTTP outcomes. -/
inductive Response
  | badRequest (error : String)
  | serverError (error : String)
  | okContent (body : QueryResponse)
  | okMetadata (body : MetadataQueryResponse)
  deriving DecidableEq

/-- The request body of `POST /api/query`; `none` models an absent or
wrongly-typed field. -/
structure QueryRequest where
  query : Option String
  scope : Option String
  doc_id : Option String
  topK : Option Int
  debug : Bool
  filters : VectorSearchFilters
  deriving DecidableEq

/-- Backend environment configuration (`ENV`). -/
structure Env where
  NODE_ENV : String
  DEFAULT_TOP_K : Int
  MAX_CONTEXT_CHUNKS : Int
  MIN_RETRIEVAL_SCORE : Option ℚ
  deriving DecidableEq

/-! ## Query route (`api/query.ts`) — stage functions -/

/-- `normalizeQuery`: collapse whitespace runs to single spaces and trim
(`input.replace(/\s+/g, " ").trim()`). -/
def normalizeQuery (input : String) : String :=
  joinSep " " ((wsTokens [] input.data).map String.mk)

/-- Effective scope after the destructuring default. -/
def effScope (req : QueryRequest) : String := req.scope.getD "all_files"

/-- Clamped `topK` (`Math.max(1, Math.min(topK, ENV.MAX_CONTEXT_CHUNKS))`,
with non-numbers replaced by the default first). -/
def topKOf (env : Env) (req : QueryRequest) : Int :=
  max 1 (min (req.topK.getD env.DEFAULT_TOP_K) env.MAX_CONTEXT_CHUNKS)

/-- Backend-authoritative filters: `current_file` pins `doc_id` to the
request's validated document, any other scope deletes the caller's
`doc_id`. -/
def finalFiltersOf (scope : String) (docId : Option String)
    (filters : VectorSearchFilters) : VectorSearchFilters :=
  if scope = "current_file" then { filters with doc_id := docId.map FVal.str }
  else { filters with doc_id := none }

/-- Score-descending order used for the balanced all-files merge
(comparator `(b.score || 0) - (a.score || 0)`). -/
def scoreDescLe (a b : SearchResult) : Prop := b.score.getD 0 ≤ a.score.getD 0

instance : DecidableRel scoreDescLe := fun a b =>
  inferInstanceAs (Decidable (b.score.getD 0 ≤ a.score.getD 0))

/-- Enumeration of the distinct (truthy) `doc_id`s found by the 100-wide
unfiltered search (`Array.from(new Set(allDocsResponse.map(...).filter(Boolean)))`). -/
def enumDocIds (store : Store) : List String :=
  dedupFirst
    (((vectorSearch store 100 noFilters (-1)).filterMap fun r => r.payload.doc_id).filter
      fun s => s ≠ "")

/-- Balanced all-files retrieval (route lines: enumerate distinct `doc_id`s
from a 100-wide search, then one per-document `vectorSearch` capped at
`max(2, floor(topK / count))`, concatenate, sort by score descending, keep
`2 × topK`). -/
def allFilesSearch (store : Store) (topK : Nat) : List SearchResult :=
  let uniqueDocIds := enumDocIds store
  if uniqueDocIds = [] then []
  else
    let perDocK := max 2 (topK / uniqueDocIds.length)
    let allChunks := uniqueDocIds.flatMap fun d =>
      vectorSearch store perDocK ⟨none, some (.str d)⟩ (-1)
    (List.insertionSort scoreDescLe allChunks).take (topK * 2)

/-- The retrieval branch: balanced all-files retrieval vs plain filtered
retrieval for `current_file`. -/
def searchStage (store : Store) (scope : String) (topK : Nat)
    (finalFilters : VectorSearchFilters) : List SearchResult :=
  if scope = "all_files" then allFilesSearch store topK
  else vectorSearch store topK finalFilters (-1)

/-- Minimum-retrieval-score safety filter: keep only results whose score is a
number at or above `minScore`. -/
def safeFilter (minScore : ℚ) (results : List SearchResult) : List SearchResult :=
  results.filter fun r =>
    match r.score with
    | some v => decide (minScore ≤ v)
    | none => false

/-- Document key used in the `(doc_id, chunk_index)` ordering (`doc_id || ""`). -/
def docStr (r : SearchResult) : String := r.payload.doc_id.getD ""

/-- Position used in the ordering (`chunk_index ?? 0`). -/
def posOf (r : SearchResult) : Int := r.payload.chunk_index.getD 0

/-- The route's chunk ordering: primarily `doc_id` (lexical), secondarily
`chunk_index` ascending. -/
def chunkLe (a b : SearchResult) : Prop :=
  strLtB (docStr a) (docStr b) = true ∨ (docStr a = docStr b ∧ posOf a ≤ posOf b)

instance : DecidableRel chunkLe := fun a b =>
  inferInstanceAs
    (Decidable (strLtB (docStr a) (docStr b) = true ∨
      (docStr a = docStr b ∧ posOf a ≤ posOf b)))

/-- Ordered chunks: sort the threshold-surviving results by
`(doc_id, chunk_index)` and truncate to `topK`. -/
def orderedChunksOf (topK : Nat) (safeResults : List SearchResult) : List SearchResult :=
  (List.insertionSort chunkLe safeResults).take topK

/-- Projection of an ordered result to the chunk shape handed to the LLM. -/
def toRAGChunk (item : SearchResult) : RAGChunk :=
  ⟨(item.payload.text.getD ""), item.payload.doc_id, item.payload.source_file, item.score⟩

/-- The chunk set supplied to answer generation, as a function of the
threshold-surviving results. -/
def ragChunksOf (topK : Nat) (safeResults : List SearchResult) : List RAGChunk :=
  (orderedChunksOf topK safeResults).map toRAGChunk

/-! ## Map-Reduce (`api/query.ts`, lines 271–372) -/

/-- Grouping key: `chunk.doc_id || "unknown"`. -/
def docKey (c : RAGChunk) : String :=
  match c.doc_id with
  | some s => if s = "" then "unknown" else s
  | none => "unknown"

/-- Append a chunk to its document's bucket in a JS `Map`-like association
list (buckets keep insertion order; keys keep first-occurrence order). -/
def appendAssoc : List (String × List RAGChunk) → String → RAGChunk →
    List (String × List RAGChunk)
  | [], k, c => [(k, [c])]
  | (k', cs) :: rest, k, c =>
      if k' = k then (k', cs ++ [c]) :: rest
      else (k', cs) :: appendAssoc rest k c

/-- `chunksByDoc`: group the ranked chunks by `doc_id || "unknown"`. -/
def groupByDoc (chunks : List RAGChunk) : List (String × List RAGChunk) :=
  chunks.foldl (fun acc c => appendAssoc acc (docKey c) c) []

/-- Build one `PerDocumentAnswer` from a Map-phase LLM result
(`source_file` falls back to `"Unknown"`). -/
def mkPerDoc (docId : String) (docChunks : List RAGChunk) (a : String) : PerDocumentAnswer :=
  { doc_id := docId
    source_file :=
      match docChunks.head? with
      | some c =>
          match c.source_file with
          | some s => if s = "" then "Unknown" else s
          | none => "Unknown"
      | none => "Unknown"
    answer := a
    chunk_count := docChunks.length }

/-- Map phase: one mandatory LLM call per document group; the join fails as
a whole if any call fails (`Promise.all`). -/
def mapPhase (llm : String → List RAGChunk → Except Unit String) (q : String) :
    List (String × List RAGChunk) → Except Unit (List PerDocumentAnswer)
  | [] => .ok []
  | g :: gs =>
      match llm q g.2 with
      | .error e => .error e
      | .ok a =>
          match mapPhase llm q gs with
          | .error e => .error e
          | .ok rest => .ok (mkPerDoc g.1 g.2 a :: rest)

/-- The "not found" test used for `allNotFound`
(`!item.answer || isAnswerNotFound(item.answer)`). -/
def notFoundJS (i : PerDocumentAnswer) : Bool :=
  i.answer = "" || isAnswerNotFound i.answer

/-- The "real answer" test used for `realAnswers`
(`item.answer && !isAnswerNotFound(item.answer)`). -/
def realJS (i : PerDocumentAnswer) : Bool :=
  i.answer ≠ "" && !isAnswerNotFound i.answer

/-- Reduce phase (route lines 342–366): all-"not found" shortcut, single
real answer shortcut, otherwise one merge-model call over all answers.  The
boolean records whether the merge model was invoked. -/
def reducePhase (merge : String → List PerDocumentAnswer → Except Unit String)
    (q : String) (perDocAnswers : List PerDocumentAnswer) :
    Except Unit (String × Bool) :=
  if perDocAnswers.all notFoundJS then .ok (FALLBACK_ANSWER, false)
  else
    let realAnswers := perDocAnswers.filter realJS
    match realAnswers with
    | [r] => .ok (r.answer, false)
    | _ => (merge q perDocAnswers).map fun a => (a, true)

/-! ## Remaining post-processing helpers -/

/-- `x || "unknown"` on an optional string. -/
def orUnknownS (o : Option String) : String :=
  match o with
  | some s => if s = "" then "unknown" else s
  | none => "unknown"

/-- Truthiness of an optional string (JS `!x`). -/
def falsyS (o : Option String) : Bool :=
  match o with
  | some s => s = ""
  | none => true

/-- Source deduplication key `` `${doc_id || "unknown"}|${source_file || "unknown"}` ``. -/
def sourceKey (c : RAGChunk) : String :=
  orUnknownS c.doc_id ++ "|" ++ orUnknownS c.source_file

/-- Deduplicate sources by the combined key, skipping chunks with neither a
`doc_id` nor a `source_file`. -/
def dedupSources (chunks : List RAGChunk) : List DocumentSource :=
  (dedupFirstBy sourceKey
      (chunks.filter fun c => !(falsyS c.doc_id && falsyS c.source_file))).map
    fun c => ⟨c.doc_id, c.source_file⟩

/-- Label of a source for the "Answering from:" prefix
(`s.source_file || s.doc_id`, kept only when a string). -/
def labelOf (s : DocumentSource) : Option String :=
  match s.source_file with
  | some t => if t = "" then s.doc_id else some t
  | none => s.doc_id

/-- Debug payload assembly (chunk previews are 1-indexed, 200-char). -/
def mkDebug (scope : String) (topK : Int) (filters : VectorSearchFilters)
    (ragChunks : List RAGChunk) : DebugInfo :=
  ⟨⟨scope, topK, filters⟩,
    ragChunks.enum.map fun ic =>
      ⟨ic.1 + 1, ic.2.doc_id, ic.2.source_file, ic.2.score, strTake ic.2.text 200⟩⟩

/-! ## The route handler (`router.post("/query")`) -/

/-- The content branch of the route (everything from the vector search on),
factored out of `handleQuery` for modular reasoning; `normalizedQuery`,
`scope`, `topK` and `finalFilters` are the values the validation prefix
computed. -/
def contentStage (env : Env) (store : Store)
    (llm : String → List RAGChunk → Except Unit String)
    (merge : String → List PerDocumentAnswer → Except Unit String)
    (nameMatch : String → Option String)
    (normalizedQuery scope : String) (docId : Option String) (debugFlag : Bool)
    (topK : Int) (finalFilters : VectorSearchFilters) : Response :=
  let searchResults := searchStage store scope topK.toNat finalFilters
  if searchResults = [] then
    .okContent ⟨normalizedQuery, scope, FALLBACK_ANSWER, [], none⟩
  else
    let minScore := env.MIN_RETRIEVAL_SCORE.getD MIN_SCORE_DEFAULT
    let safeResults := safeFilter minScore searchResults
    if safeResults = [] then
      .okContent ⟨normalizedQuery, scope, FALLBACK_ANSWER, [], none⟩
    else
      let ragChunks := ragChunksOf topK.toNat safeResults
      if ragChunks = [] then
        .okContent ⟨normalizedQuery, scope,
          "No relevant content was found in the uploaded documents.", [], none⟩
      else if scope = "current_file" ∧
          ¬ ragChunks.any (fun c => c.doc_id == docId) then
        .badRequest "Invalid document selection. Document not found."
      else
        let chunksByDoc := groupByDoc ragChunks
        let uniqueDocIds := chunksByDoc.map Prod.fst
        let usedMapReduce := scope = "all_files" ∧ uniqueDocIds.length > 1
        let answerE : Except Unit String :=
          if usedMapReduce then
            match mapPhase llm normalizedQuery chunksByDoc with
            | .error e => .error e
            | .ok perDocAnswers =>
                match reducePhase merge normalizedQuery perDocAnswers with
                | .error e => .error e
                | .ok (a, _) => .ok a
          else llm normalizedQuery ragChunks
        match answerE with
        | .error _ => .serverError "Failed to process query"
        | .ok answer0 =>
          if strTrim answer0 = "" then
            .okContent ⟨normalizedQuery, scope, FALLBACK_ANSWER, [], none⟩
          else
            let answer1 :=
              if isAnswerNotFound answer0 then
                let candidateText :=
                  joinSep "\n" ((ragChunks.take 2).map fun c => c.text)
                match nameMatch candidateText with
                | some m =>
                    if ¬ INVALID_NAME_PATTERNS.contains m then
                      "The name of the person in the resume is " ++ strTrim m ++ "."
                    else answer0
                | none => answer0
              else answer0
            if strTrim answer1 = "" then
              .okContent ⟨normalizedQuery, scope, FALLBACK_ANSWER, [], none⟩
            else
              let sources := dedupSources ragChunks
              let answer2 :=
                if ¬ usedMapReduce ∧ sources ≠ [] then
                  let documentLabels := sources.filterMap labelOf
                  if documentLabels ≠ [] then
                    "Answering from: " ++
                      joinSep ", " (dedupFirst documentLabels) ++
                      "\n\n" ++ answer1
                  else answer1
                else answer1
              .okContent ⟨normalizedQuery, scope, answer2, sources,
                if debugFlag ∧ env.NODE_ENV ≠ "production" then
                  some (mkDebug scope topK finalFilters ragChunks)
                else none⟩

/-- The full `POST /api/query` handler.  External collaborators are
parameters: `patterns` (the metadata regexes), `store` (the Qdrant client,
assumed reachable), `embedF` (`generateEmbedding`), `llm`
(`generateLLMAnswer`), `merge` (`mergeLLMAnswers`), `nameMatch` (the résumé
name regex, returning the raw match if any).  An `Except.error` from a
collaborator is a rejected promise, caught by the catch-all 500 handler. -/
def handleQuery (env : Env) (patterns : List (String → Bool)) (store : Store)
    (embedF : String → Except Unit Unit)
    (llm : String → List RAGChunk → Except Unit String)
    (merge : String → List PerDocumentAnswer → Except Unit String)
    (nameMatch : String → Option String)
    (req : QueryRequest) : Response :=
  match req.query with
  | none => .badRequest "Query text is required"
  | some q =>
    let normalizedQuery := normalizeQuery q
    if normalizedQuery = "" then .badRequest "Query text cannot be empty"
    else if detectQueryIntent patterns normalizedQuery = .metadata then
      let documents := getDocumentMetadata store
      .okMetadata ⟨normalizedQuery, "metadata", documents, documents.length⟩
    else
      let scope := effScope req
      if scope ≠ "current_file" ∧ scope ≠ "all_files" then
        .badRequest "Invalid scope. Must be 'current_file' or 'all_files'"
      else if scope = "current_file" ∧ (strTrim (req.doc_id.getD "") = "") then
        .badRequest "doc_id is required when scope is 'current_file'"
      else
        match embedF normalizedQuery with
        | .error _ => .serverError "Failed to process query"
        | .ok _ =>
            contentStage env store llm merge nameMatch normalizedQuery scope
              req.doc_id req.debug (topKOf env req)
              (finalFiltersOf scope req.doc_id req.filters)

deriving instance DecidableEq for Except

/-! ## Concrete example inputs used to exercise the pipeline -/

/-- The rational `9/10`, as a reduced literal. -/
def q90 : ℚ := ⟨9, 10, by decide, by decide⟩

/-- The rational `4/5`. -/
def q80 : ℚ := ⟨4, 5, by decide, by decide⟩

/-- The rational `7/10`. -/
def q70 : ℚ := ⟨7, 10, by decide, by decide⟩

/-- The rational `1/10`. -/
def q10 : ℚ := ⟨1, 10, by decide, by decide⟩

/-- Development-mode environment with the default configuration values. -/
def wEnv : Env := ⟨"development", 5, 8, some MIN_SCORE_DEFAULT⟩

/-- An LLM stub that always answers. -/
def wLlm : String → List RAGChunk → Except Unit String := fun _ _ => .ok "found it"

/-- An LLM stub that always fails (rejected promise). -/
def wLlmFail : String → List RAGChunk → Except Unit String := fun _ _ => .error ()

/-- A merge stub. -/
def wMerge : String → List PerDocumentAnswer → Except Unit String :=
  fun _ _ => .ok "merged"

/-- An embedding stub that succeeds. -/
def wEmbed : String → Except Unit Unit := fun _ => .ok ()

/-- A name-extraction stub that never matches. -/
def wNameMatch : String → Option String := fun _ => none

/-- Two ranked chunks from two documents. -/
def wChunkA : RAGChunk := ⟨"ta", some "A", some "a.pdf", some q90⟩

/-- Second chunk, from document B. -/
def wChunkB : RAGChunk := ⟨"tb", some "B", some "b.pdf", some q80⟩

/-- The Map-phase output on `[wChunkA, wChunkB]` with `wLlm`. -/
def wMapAnswers : List PerDocumentAnswer :=
  [⟨"A", "a.pdf", "found it", 1⟩, ⟨"B", "b.pdf", "found it", 1⟩]

/-- Three per-document answers, all matching the not-found classifier. -/
def wAnswersAllNF : List PerDocumentAnswer :=
  [⟨"A", "a.pdf", FALLBACK_ANSWER, 1⟩, ⟨"B", "b.pdf", "", 1⟩,
   ⟨"C", "c.pdf", "I cannot find that here.", 2⟩]

/-- The single substantive answer among `wAnswersOneReal`. -/
def wRealAnswer : PerDocumentAnswer := ⟨"C", "c.pdf", "Alice is the author.", 2⟩

/-- Three per-document answers with exactly one substantive one. -/
def wAnswersOneReal : List PerDocumentAnswer :=
  [⟨"A", "a.pdf", FALLBACK_ANSWER, 1⟩, ⟨"B", "b.pdf", "", 1⟩, wRealAnswer]

/-- Two threshold-surviving results of one document, out of position order. -/
def wSafe : List SearchResult :=
  [⟨"x1", some q90, ⟨some "t1", some "A", some "a.pdf", some 1⟩⟩,
   ⟨"x0", some q80, ⟨some "t0", some "A", some "a.pdf", some 0⟩⟩]

/-- A store content for a single document `A` whose lead chunk scores low on
similarity: the body chunk outranks the position-0 header chunk. -/
def wDbLead : VectorDB :=
  [⟨"id1", q90, ⟨some "body text", some "A", some "a.pdf", some 1⟩⟩,
   ⟨"id0", q10, ⟨some "HEADER", some "A", some "a.pdf", some 0⟩⟩]

/-- A store content with three documents, one relevant chunk each. -/
def wDbThree : VectorDB :=
  [⟨"a1", q90, ⟨some "ta", some "A", some "a.pdf", some 0⟩⟩,
   ⟨"b1", q80, ⟨some "tb", some "B", some "b.pdf", some 0⟩⟩,
   ⟨"c1", q70, ⟨some "tc", some "C", some "c.pdf", some 0⟩⟩]

/-- A store content where every similarity score is below the threshold. -/
def wDbLow : VectorDB :=
  [⟨"a1", q10, ⟨some "ta", some "A", some "a.pdf", some 1⟩⟩]

/-- A store content with two above-threshold documents. -/
def wDbTwo : VectorDB :=
  [⟨"a1", q90, ⟨some "ta", some "A", some "a.pdf", some 1⟩⟩,
   ⟨"b1", q80, ⟨some "tb", some "B", some "b.pdf", some 1⟩⟩]

/-- An `all_files` request with `topK = 6`. -/
def wReqAll : QueryRequest := ⟨some "what is it", some "all_files", none, some 6, false, noFilters⟩

/-- A `current_file` request for document `A` with `topK = 1`. -/
def wReqCur : QueryRequest := ⟨some "what is it", some "current_file", some "A", some 1, false, noFilters⟩

/-- A metadata request. -/
def wReqMeta : QueryRequest := ⟨some "List all   documents", none, none, none, false, noFilters⟩

/-- The metadata pattern list used by the metadata witnesses. -/
def wPatterns : List (String → Bool) := [fun s => s = "list all documents"]

/-! ## Lemmas: first-occurrence deduplication -/

theorem dedupFirstByAux_subset {α β : Type} (key : α → β) [DecidableEq β] :
    ∀ (l : List α) (seen : List β) (x : α), x ∈ dedupFirstByAux key seen l → x ∈ l := by
  intro l
  induction l with
  | nil => intro seen x h; simp [dedupFirstByAux] at h
  | cons y ys ih =>
    intro seen x h
    simp only [dedupFirstByAux] at h
    by_cases hk : key y ∈ seen
    · simp only [if_pos hk] at h
      exact List.mem_cons_of_mem _ (ih seen x h)
    · simp only [if_neg hk, List.mem_cons] at h
      rcases h with h | h
      · exact h ▸ List.mem_cons_self _ _
      · exact List.mem_cons_of_mem _ (ih _ x h)

theorem dedupFirstByAux_exists_key {α β : Type} (key : α → β) [DecidableEq β] :
    ∀ (l : List α) (seen : List β) (a : α), a ∈ l → key a ∉ seen →
      ∃ b ∈ dedupFirstByAux key seen l, key b = key a := by
  intro l
  induction l with
  | nil => intro seen a h; simp at h
  | cons y ys ih =>
    intro seen a ha hna
    simp only [dedupFirstByAux]
    rcases List.mem_cons.mp ha with rfl | ha'
    · rw [if_neg hna]
      exact ⟨a, List.mem_cons_self _ _, rfl⟩
    · by_cases hk : key y ∈ seen
      · rw [if_pos hk]
        exact ih seen a ha' hna
      · rw [if_neg hk]
        by_cases he : key a = key y
        · exact ⟨y, List.mem_cons_self _ _, he.symm⟩
        · have hna' : key a ∉ key y :: seen := by
            simp only [List.mem_cons]
            exact fun h => h.elim he hna
          obtain ⟨b, hb, hbk⟩ := ih (key y :: seen) a ha' hna'
          exact ⟨b, List.mem_cons_of_mem _ hb, hbk⟩

theorem dedupFirstByAux_not_seen {α β : Type} (key : α → β) [DecidableEq β] :
    ∀ (l : List α) (seen : List β) (b : α), b ∈ dedupFirstByAux key seen l →
      key b ∉ seen := by
  intro l
  induction l with
  | nil => intro seen b h; simp [dedupFirstByAux] at h
  | cons y ys ih =>
    intro seen b h
    simp only [dedupFirstByAux] at h
    by_cases hk : key y ∈ seen
    · simp only [if_pos hk] at h
      exact ih seen b h
    · simp only [if_neg hk, List.mem_cons] at h
      rcases h with rfl | h
      · exact hk
      · have := ih _ b h
        simp only [List.mem_cons] at this
        exact fun hc => this (Or.inr hc)

theorem dedupFirstByAux_nodup_keys {α β : Type} (key : α → β) [DecidableEq β] :
    ∀ (l : List α) (seen : List β), ((dedupFirstByAux key seen l).map key).Nodup := by
  intro l
  induction l with
  | nil => intro seen; simp [dedupFirstByAux]
  | cons y ys ih =>
    intro seen
    simp only [dedupFirstByAux]
    by_cases hk : key y ∈ seen
    · simpa [if_pos hk] using ih seen
    · simp only [if_neg hk, List.map_cons, List.nodup_cons]
      refine ⟨?_, ih _⟩
      intro hmem
      obtain ⟨b, hb, hbk⟩ := List.mem_map.mp hmem
      have := dedupFirstByAux_not_seen key ys (key y :: seen) b hb
      exact this (hbk ▸ List.mem_cons_self _ _)

theorem length_dedupFirstByAux_le {α β : Type} (key : α → β) [DecidableEq β] :
    ∀ (l : List α) (seen : List β), (dedupFirstByAux key seen l).length ≤ l.length := by
  intro l
  induction l with
  | nil => intro seen; simp [dedupFirstByAux]
  | cons y ys ih =>
    intro seen
    simp only [dedupFirstByAux]
    by_cases hk : key y ∈ seen
    · rw [if_pos hk]
      exact (ih seen).trans (Nat.le_succ _)
    · rw [if_neg hk]
      simpa using Nat.succ_le_succ (ih (key y :: seen))

theorem dedupFirstBy_subset {α β : Type} (key : α → β) [DecidableEq β]
    {l : List α} {x : α} (h : x ∈ dedupFirstBy key l) : x ∈ l :=
  dedupFirstByAux_subset key l [] x h

theorem dedupFirstBy_exists_key {α β : Type} (key : α → β) [DecidableEq β]
    {l : List α} {a : α} (h : a ∈ l) : ∃ b ∈ dedupFirstBy key l, key b = key a :=
  dedupFirstByAux_exists_key key l [] a h (by simp)

theorem dedupFirstBy_nodup_keys {α β : Type} (key : α → β) [DecidableEq β]
    (l : List α) : ((dedupFirstBy key l).map key).Nodup :=
  dedupFirstByAux_nodup_keys key l []

theorem length_dedupFirstBy_le {α β : Type} (key : α → β) [DecidableEq β]
    (l : List α) : (dedupFirstBy key l).length ≤ l.length :=
  length_dedupFirstByAux_le key l []

theorem mem_dedupFirst {l : List String} {x : String} : x ∈ dedupFirst l ↔ x ∈ l := by
  constructor
  · exact fun h => dedupFirstBy_subset id h
  · intro h
    obtain ⟨b, hb, hbk⟩ := dedupFirstBy_exists_key id h
    have hbx : b = x := hbk
    exact hbx ▸ hb

theorem dedupFirst_nodup (l : List String) : (dedupFirst l).Nodup := by
  have := dedupFirstBy_nodup_keys (id : String → String) l
  simpa using this

/-! ## Lemmas: grouping by document -/

theorem mem_appendAssoc_keys (acc : List (String × List RAGChunk)) (k : String)
    (c : RAGChunk) (x : String) :
    x ∈ (appendAssoc acc k c).map Prod.fst ↔ x ∈ acc.map Prod.fst ∨ x = k := by
  induction acc with
  | nil => simp [appendAssoc]
  | cons p rest ih =>
    by_cases hk : p.1 = k
    · cases p with
      | mk k' cs =>
        simp only at hk
        subst hk
        simp [appendAssoc]
        tauto
    · cases p with
      | mk k' cs =>
        simp only at hk
        simp only [appendAssoc, if_neg hk, List.map_cons, List.mem_cons, ih]
        tauto

theorem appendAssoc_keys_nodup (acc : List (String × List RAGChunk)) (k : String)
    (c : RAGChunk) (h : (acc.map Prod.fst).Nodup) :
    ((appendAssoc acc k c).map Prod.fst).Nodup := by
  induction acc with
  | nil => simp [appendAssoc]
  | cons p rest ih =>
    cases p with
    | mk k' cs =>
      simp only [List.map_cons, List.nodup_cons] at h
      by_cases hk : k' = k
      · subst hk
        simpa [appendAssoc, List.nodup_cons] using h
      · simp only [appendAssoc, if_neg hk, List.map_cons, List.nodup_cons]
        refine ⟨?_, ih h.2⟩
        intro hc
        exact h.1 ((mem_appendAssoc_keys rest k c k').mp hc |>.elim id
          (fun he => absurd he hk))

theorem foldl_appendAssoc_mem (l : List RAGChunk) :
    ∀ (acc : List (String × List RAGChunk)) (x : String),
      x ∈ ((l.foldl (fun a c => appendAssoc a (docKey c) c) acc).map Prod.fst) ↔
        x ∈ acc.map Prod.fst ∨ x ∈ l.map docKey := by
  induction l with
  | nil => simp
  | cons c cs ih =>
    intro acc x
    simp only [List.foldl_cons, ih, mem_appendAssoc_keys, List.map_cons, List.mem_cons]
    tauto

theorem foldl_appendAssoc_nodup (l : List RAGChunk) :
    ∀ (acc : List (String × List RAGChunk)), (acc.map Prod.fst).Nodup →
      ((l.foldl (fun a c => appendAssoc a (docKey c) c) acc).map Prod.fst).Nodup := by
  induction l with
  | nil => intro acc h; simpa
  | cons c cs ih =>
    intro acc h
    exact ih _ (appendAssoc_keys_nodup acc (docKey c) c h)

theorem groupByDoc_keys_nodup (chunks : List RAGChunk) :
    ((groupByDoc chunks).map Prod.fst).Nodup :=
  foldl_appendAssoc_nodup chunks [] (by simp)

theorem mem_groupByDoc_keys (chunks : List RAGChunk) (x : String) :
    x ∈ (groupByDoc chunks).map Prod.fst ↔ x ∈ chunks.map docKey := by
  have := foldl_appendAssoc_mem chunks [] x
  simpa [groupByDoc] using this

/-! ## Lemmas: Map phase -/

theorem mapPhase_ok_docIds (llm : String → List RAGChunk → Except Unit String)
    (q : String) :
    ∀ (gs : List (String × List RAGChunk)) (answers : List PerDocumentAnswer),
      mapPhase llm q gs = .ok answers →
        answers.map (fun a => a.doc_id) = gs.map Prod.fst := by
  intro gs
  induction gs with
  | nil =>
    intro answers h
    simp only [mapPhase] at h
    cases h
    simp
  | cons g rest ih =>
    intro answers h
    simp only [mapPhase] at h
    cases hl : llm q g.2 with
    | error e => rw [hl] at h; cases h
    | ok a =>
      rw [hl] at h
      cases hr : mapPhase llm q rest with
      | error e => rw [hr] at h; cases h
      | ok tail =>
        rw [hr] at h
        cases h
        simp [mkPerDoc, ih tail hr]

theorem mapPhase_error_of_mem (llm : String → List RAGChunk → Except Unit String)
    (q : String) :
    ∀ (gs : List (String × List RAGChunk)) (g : String × List RAGChunk),
      g ∈ gs → llm q g.2 = .error () → mapPhase llm q gs = .error () := by
  intro gs
  induction gs with
  | nil => intro g h; simp at h
  | cons g0 rest ih =>
    intro g hg hfail
    rcases List.mem_cons.mp hg with rfl | hg'
    · simp only [mapPhase, hfail]
    · simp only [mapPhase]
      cases hl : llm q g0.2 with
      | error e => rfl
      | ok a => rw [ih g hg' hfail]

/-! ## Lemmas: metadata dedup -/

theorem mapUpsert_keys {α : Type} (acc : List (String × α)) (k : String) (v : α) :
    (mapUpsert acc k v).map Prod.fst =
      if k ∈ acc.map Prod.fst then acc.map Prod.fst else acc.map Prod.fst ++ [k] := by
  induction acc with
  | nil => simp [mapUpsert]
  | cons p rest ih =>
    cases p with
    | mk k' v' =>
      by_cases hk : k' = k
      · subst hk
        simp [mapUpsert]
      · have hk' : ¬ k = k' := fun h => hk h.symm
        simp only [mapUpsert, if_neg hk, List.map_cons, ih, List.mem_cons]
        by_cases hmem : k ∈ rest.map Prod.fst
        · simp [hmem, hk']
        · simp [hmem, hk']

theorem mapUpsert_nodup {α : Type} (acc : List (String × α)) (k : String) (v : α)
    (h : (acc.map Prod.fst).Nodup) : ((mapUpsert acc k v).map Prod.fst).Nodup := by
  rw [mapUpsert_keys]
  by_cases hmem : k ∈ acc.map Prod.fst
  · simpa [hmem]
  · rw [if_neg hmem]
    refine List.Nodup.append h (by simp) ?_
    intro a ha hb
    simp only [List.mem_singleton] at hb
    subst hb
    exact hmem ha

theorem mapUpsert_forall {α : Type} {P : String × α → Prop} :
    ∀ (acc : List (String × α)) (k : String) (v : α),
      (∀ kv ∈ acc, P kv) → P (k, v) → ∀ kv ∈ mapUpsert acc k v, P kv := by
  intro acc
  induction acc with
  | nil =>
    intro k v _ hkv kv h
    simp only [mapUpsert, List.mem_singleton] at h
    exact h ▸ hkv
  | cons p rest ih =>
    intro k v hacc hkv kv h
    cases p with
    | mk k' v' =>
      by_cases hk : k' = k
      · simp only [mapUpsert, if_pos hk, List.mem_cons] at h
        rcases h with rfl | h
        · rw [hk]; exact hkv
        · exact hacc _ (List.mem_cons_of_mem _ h)
      · simp only [mapUpsert, if_neg hk, List.mem_cons] at h
        rcases h with rfl | h
        · exact hacc _ (List.mem_cons_self _ _)
        · exact ih k v (fun kv hkv' => hacc _ (List.mem_cons_of_mem _ hkv')) hkv kv h

theorem foldl_mapUpsert_nodup {α : Type} (l : List α) (keyf : α → String) :
    ∀ (acc : List (String × α)), (acc.map Prod.fst).Nodup →
      ((l.foldl (fun acc d => mapUpsert acc (keyf d) d) acc).map Prod.fst).Nodup := by
  induction l with
  | nil => intro acc h; simpa
  | cons d ds ih =>
    intro acc h
    exact ih _ (mapUpsert_nodup acc (keyf d) d h)

theorem foldl_mapUpsert_forall {α : Type} {P : String × α → Prop} (l : List α)
    (keyf : α → String) :
    ∀ (acc : List (String × α)), (∀ kv ∈ acc, P kv) →
      (∀ d ∈ l, P (keyf d, d)) →
      ∀ kv ∈ l.foldl (fun acc d => mapUpsert acc (keyf d) d) acc, P kv := by
  induction l with
  | nil => intro acc hacc _ kv h; exact hacc kv h
  | cons d ds ih =>
    intro acc hacc hl kv h
    refine ih _ ?_ (fun d' hd' => hl d' (List.mem_cons_of_mem _ hd')) kv h
    exact mapUpsert_forall acc (keyf d) d hacc (hl d (List.mem_cons_self _ _))

/-- The metadata entries returned by `getDocumentMetadata` have pairwise
distinct `doc_id`s: one entry per distinct document. -/
theorem getDocumentMetadata_nodup (store : Store) :
    ((getDocumentMetadata store).map (fun d => d.doc_id)).Nodup := by
  unfold getDocumentMetadata
  set meta := (store.scroll 100 [Cond.chunkIndex 0]).filterMap
    (fun p => match p.payload.doc_id with
      | some s => if s = "" then none else some (⟨s, p.payload.source_file⟩ : DocumentMetadata)
      | none => none) with hmeta
  set M := meta.foldl (fun acc d => mapUpsert acc d.doc_id d) [] with hM
  have hinv : ∀ kv ∈ M, (fun kv : String × DocumentMetadata => kv.2.doc_id = kv.1) kv := by
    rw [hM]
    exact foldl_mapUpsert_forall meta (fun d => d.doc_id) [] (by simp) (fun d _ => rfl)
  have hkeys : (M.map Prod.fst).Nodup := by
    rw [hM]
    exact foldl_mapUpsert_nodup meta (fun d => d.doc_id) [] (by simp)
  have : (M.map Prod.snd).map (fun d => d.doc_id) = M.map Prod.fst := by
    rw [List.map_map]
    exact List.map_congr_left fun kv hkv => hinv kv hkv
  rw [this]
  exact hkeys

/-! ## Lemmas: the lexicographic chunk order -/

theorem boolNotTrue {b : Bool} (h : ¬ b = true) : b = false := by
  cases b
  · rfl
  · exact absurd rfl h

theorem charListLt_irrefl : ∀ l : List Char, charListLt l l = false := by
  intro l
  induction l with
  | nil => rfl
  | cons c cs ih => simp [charListLt, ih]

theorem charListLt_trans :
    ∀ (a b c : List Char), charListLt a b = true → charListLt b c = true →
      charListLt a c = true := by
  intro a
  induction a with
  | nil =>
    intro b c h1 h2
    cases b with
    | nil => cases h1
    | cons y ys =>
      cases c with
      | nil => cases h2
      | cons z zs => rfl
  | cons x xs ih =>
    intro b c h1 h2
    cases b with
    | nil => cases h1
    | cons y ys =>
      cases c with
      | nil => cases h2
      | cons z zs =>
        simp only [charListLt] at h1 h2 ⊢
        by_cases hxy : x.toNat < y.toNat
        · by_cases hyz : y.toNat < z.toNat
          · rw [if_pos (by omega : x.toNat < z.toNat)]
          · rw [if_neg hyz] at h2
            by_cases hzy : z.toNat < y.toNat
            · rw [if_pos hzy] at h2; cases h2
            · rw [if_pos (by omega : x.toNat < z.toNat)]
        · rw [if_neg hxy] at h1
          by_cases hyx : y.toNat < x.toNat
          · rw [if_pos hyx] at h1; cases h1
          · rw [if_neg hyx] at h1
            by_cases hyz : y.toNat < z.toNat
            · rw [if_pos (by omega : x.toNat < z.toNat)]
            · rw [if_neg hyz] at h2
              by_cases hzy : z.toNat < y.toNat
              · rw [if_pos hzy] at h2; cases h2
              · rw [if_neg hzy] at h2
                rw [if_neg (by omega : ¬ x.toNat < z.toNat),
                  if_neg (by omega : ¬ z.toNat < x.toNat)]
                exact ih ys zs h1 h2

theorem charListLt_antisymm :
    ∀ (a b : List Char), charListLt a b = false → charListLt b a = false →
      a = b := by
  intro a
  induction a with
  | nil =>
    intro b h1 _
    cases b with
    | nil => rfl
    | cons d ds => cases h1
  | cons c cs ih =>
    intro b h1 h2
    cases b with
    | nil => cases h2
    | cons d ds =>
      simp only [charListLt] at h1 h2
      by_cases hcd : c.toNat < d.toNat
      · rw [if_pos hcd] at h1; cases h1
      · rw [if_neg hcd] at h1
        by_cases hdc : d.toNat < c.toNat
        · rw [if_pos hdc] at h2; cases h2
        · rw [if_neg hdc] at h1
          rw [if_neg hdc, if_neg hcd] at h2
          have hnat : c.toNat = d.toNat := by omega
          have hch : c = d := by
            have h3 : Char.ofNat c.toNat = Char.ofNat d.toNat := by rw [hnat]
            rwa [Char.ofNat_toNat, Char.ofNat_toNat] at h3
          rw [hch, ih ds h1 h2]

theorem strLtB_irrefl (s : String) : strLtB s s = false := charListLt_irrefl s.data

theorem strLtB_trans {a b c : String} (h1 : strLtB a b = true)
    (h2 : strLtB b c = true) : strLtB a c = true :=
  charListLt_trans a.data b.data c.data h1 h2

theorem strLtB_antisymm {a b : String} (h1 : strLtB a b = false)
    (h2 : strLtB b a = false) : a = b := by
  have hd := charListLt_antisymm a.data b.data h1 h2
  cases a with
  | mk da =>
    cases b with
    | mk db => exact congrArg String.mk hd

theorem chunkLe_total : ∀ a b : SearchResult, chunkLe a b ∨ chunkLe b a := by
  intro a b
  by_cases hab : strLtB (docStr a) (docStr b) = true
  · exact Or.inl (Or.inl hab)
  · by_cases hba : strLtB (docStr b) (docStr a) = true
    · exact Or.inr (Or.inl hba)
    · have he : docStr a = docStr b :=
        strLtB_antisymm (boolNotTrue hab) (boolNotTrue hba)
      rcases le_total (posOf a) (posOf b) with hp | hp
      · exact Or.inl (Or.inr ⟨he, hp⟩)
      · exact Or.inr (Or.inr ⟨he.symm, hp⟩)

theorem chunkLe_trans :
    ∀ a b c : SearchResult, chunkLe a b → chunkLe b c → chunkLe a c := by
  intro a b c hab hbc
  rcases hab with h1 | ⟨h1, h1'⟩ <;> rcases hbc with h2 | ⟨h2, h2'⟩
  · exact Or.inl (strLtB_trans h1 h2)
  · exact Or.inl (h2 ▸ h1)
  · refine Or.inl ?_
    rw [h1]
    exact h2
  · exact Or.inr ⟨h1.trans h2, h1'.trans h2'⟩

/-! ## Lemmas: reduce-phase classifiers and context scores -/

theorem realJS_eq (i : PerDocumentAnswer) : realJS i = !(notFoundJS i) := by
  simp [realJS, notFoundJS, Bool.not_or, decide_not]

theorem context_score (minScore : ℚ) (k : Nat) (rs : List SearchResult) :
    ∀ c ∈ ragChunksOf k (safeFilter minScore rs),
      ∃ v, c.score = some v ∧ minScore ≤ v := by
  intro c hc
  simp only [ragChunksOf] at hc
  obtain ⟨item, hitem, rfl⟩ := List.mem_map.mp hc
  have h2 : item ∈ List.insertionSort chunkLe (safeFilter minScore rs) :=
    List.take_subset _ _ hitem
  have h3 : item ∈ safeFilter minScore rs := (List.mem_insertionSort chunkLe).mp h2
  have h4 := (List.mem_filter.mp h3).2
  cases hsc : item.score with
  | none => rw [hsc] at h4; cases h4
  | some v =>
    rw [hsc] at h4
    exact ⟨v, by simp [toRAGChunk, hsc], of_decide_eq_true h4⟩

theorem map_docKey_eq_filterMap (chunks : List RAGChunk)
    (h : ∀ c ∈ chunks, c.doc_id ≠ none ∧ c.doc_id ≠ some "") :
    chunks.map docKey = chunks.filterMap (fun c => c.doc_id) := by
  induction chunks with
  | nil => simp
  | cons c cs ih =>
    have hc := h c (List.mem_cons_self _ _)
    cases hdoc : c.doc_id with
    | none => exact absurd hdoc hc.1
    | some s =>
      have hs : s ≠ "" := by
        intro he
        exact hc.2 (by rw [hdoc, he])
      simp only [List.map_cons, List.filterMap_cons, hdoc, docKey]
      rw [ih fun c' hc' => h c' (List.mem_cons_of_mem _ hc'), if_neg hs]

/-! ## Lemmas: the vector-search service over a concrete store -/

theorem headq_mem {α : Type} {l : List α} {a : α} (h : l.head? = some a) : a ∈ l := by
  cases l with
  | nil => cases h
  | cons x xs =>
    simp only [List.head?_cons, Option.some.injEq] at h
    exact h ▸ List.mem_cons_self _ _

theorem dedupFirstBy_ne_nil {α β : Type} (key : α → β) [DecidableEq β]
    {l : List α} (h : l ≠ []) : dedupFirstBy key l ≠ [] := by
  cases l with
  | nil => exact absurd rfl h
  | cons x xs => simp [dedupFirstBy, dedupFirstByAux]

theorem flatMap_length_le {α β : Type} (l : List α) (f : α → List β) (b : Nat)
    (h : ∀ x ∈ l, (f x).length ≤ b) : (l.flatMap f).length ≤ l.length * b := by
  induction l with
  | nil => simp
  | cons x xs ih =>
    simp only [List.flatMap_cons, List.length_append, List.length_cons]
    have h1 := h x (List.mem_cons_self _ _)
    have h2 := ih fun y hy => h y (List.mem_cons_of_mem _ hy)
    calc (f x).length + (xs.flatMap f).length ≤ b + xs.length * b := by omega
    _ = (xs.length + 1) * b := by ring

theorem qdrantSearch_mem {db : VectorDB} {limit : Nat} {conds : List Cond}
    {sp : ScoredPoint} (h : sp ∈ qdrantSearch db limit conds) :
    ∃ p ∈ db, sp.id = p.id ∧ sp.payload = p.payload ∧
      conds.all (matchesCond p.payload) = true := by
  unfold qdrantSearch at h
  obtain ⟨p, hp, rfl⟩ := List.mem_map.mp h
  have h2 : p ∈ List.insertionSort simGe
      (db.filter fun p => conds.all (matchesCond p.payload)) :=
    List.take_subset _ _ hp
  have h3 := (List.mem_insertionSort simGe).mp h2
  have h4 := List.mem_filter.mp h3
  exact ⟨p, h4.1, rfl, rfl, h4.2⟩

theorem qdrantScroll_mem {db : VectorDB} {limit : Nat} {conds : List Cond}
    {rp : RawPoint} (h : rp ∈ qdrantScroll db limit conds) :
    ∃ p ∈ db, rp.id = p.id ∧ rp.payload = p.payload ∧
      conds.all (matchesCond p.payload) = true := by
  unfold qdrantScroll at h
  obtain ⟨p, hp, rfl⟩ := List.mem_map.mp h
  have h2 : p ∈ db.filter fun p => conds.all (matchesCond p.payload) :=
    List.take_subset _ _ hp
  have h4 := List.mem_filter.mp h2
  exact ⟨p, h4.1, rfl, rfl, h4.2⟩

theorem qdrantSearch_ne_nil {db : VectorDB} {limit : Nat} {conds : List Cond}
    {p : Point} (hl : 1 ≤ limit) (hp : p ∈ db)
    (hc : conds.all (matchesCond p.payload) = true) :
    qdrantSearch db limit conds ≠ [] := by
  unfold qdrantSearch
  intro h
  have hlen := congrArg List.length h
  simp only [List.length_map, List.length_take, List.length_insertionSort,
    List.length_nil] at hlen
  have hmem : p ∈ db.filter fun p => conds.all (matchesCond p.payload) :=
    List.mem_filter.mpr ⟨hp, hc⟩
  have : 1 ≤ (db.filter fun p => conds.all (matchesCond p.payload)).length :=
    List.length_pos.mpr (List.ne_nil_of_mem hmem)
  omega

theorem qdrantSearch_len_le (db : VectorDB) (limit : Nat) (conds : List Cond) :
    (qdrantSearch db limit conds).length ≤ limit := by
  unfold qdrantSearch
  simp only [List.length_map, List.length_take, List.length_insertionSort]
  omega

/-- Definitional shape of `vectorSearch` under a plain string `doc_id`
filter. -/
theorem vectorSearch_str_eq (store : Store) (k : Nat) (d : String) :
    vectorSearch store k ⟨none, some (.str d)⟩ (-1) =
      dedupFirstBy (fun r => r.id)
        ((store.search k [Cond.docId (.str d)]).map scoredToResult ++
          (((store.scroll 1 [Cond.docId (.str d), Cond.chunkIndex 0]).head?).map
            rawToResult).toList) := by
  unfold vectorSearch
  norm_num

/-- Definitional shape of `vectorSearch` under no filters. -/
theorem vectorSearch_nofilter_eq (store : Store) :
    vectorSearch store 100 noFilters (-1) =
      dedupFirstBy (fun r => r.id)
        ((store.search 100 []).map scoredToResult ++
          (((store.scroll 1 [Cond.chunkIndex 0]).head?).map rawToResult).toList) := by
  unfold vectorSearch noFilters
  norm_num

theorem vectorSearch_str_mem {db : VectorDB} {k : Nat} {d : String}
    {r : SearchResult} (h : r ∈ vectorSearch (dbStore db) k ⟨none, some (.str d)⟩ (-1)) :
    (∃ p ∈ db, r.id = p.id ∧ r.payload = p.payload) ∧
      r.payload.doc_id = some d := by
  rw [vectorSearch_str_eq] at h
  have h2 := dedupFirstBy_subset _ h
  rcases List.mem_append.mp h2 with hs | hh
  · obtain ⟨sp, hsp, rfl⟩ := List.mem_map.mp hs
    obtain ⟨p, hp, hid, hpay, hconds⟩ := qdrantSearch_mem hsp
    simp only [List.all_cons, List.all_nil, Bool.and_true, matchesCond,
      decide_eq_true_eq] at hconds
    exact ⟨⟨p, hp, hid, hpay⟩, by simp [scoredToResult, hpay, hconds]⟩
  · cases hho : (dbStore db).scroll 1 [Cond.docId (.str d), Cond.chunkIndex 0] |>.head? with
    | none => rw [hho] at hh; cases hh
    | some rp =>
      rw [hho] at hh
      have hh' : r = rawToResult rp := by simpa using hh
      subst hh'
      obtain ⟨p, hp, hid, hpay, hconds⟩ := qdrantScroll_mem (headq_mem hho)
      simp only [List.all_cons, List.all_nil, Bool.and_true, Bool.and_eq_true,
        matchesCond, decide_eq_true_eq] at hconds
      exact ⟨⟨p, hp, hid, hpay⟩, by simp [rawToResult, hpay, hconds.1]⟩

theorem vectorSearch_str_ne_nil {db : VectorDB} {k : Nat} {d : String}
    (hk : 1 ≤ k) {p : Point} (hp : p ∈ db)
    (hpd : p.payload.doc_id = some d) :
    vectorSearch (dbStore db) k ⟨none, some (.str d)⟩ (-1) ≠ [] := by
  rw [vectorSearch_str_eq]
  apply dedupFirstBy_ne_nil
  intro hc
  have h1 : ((dbStore db).search k [Cond.docId (.str d)]).map scoredToResult = [] :=
    (List.append_eq_nil.mp hc).1
  have h2 := List.map_eq_nil_iff.mp h1
  exact qdrantSearch_ne_nil hk hp (by simp [matchesCond, hpd]) h2

theorem vectorSearch_str_len_le (db : VectorDB) (k : Nat) (d : String) :
    (vectorSearch (dbStore db) k ⟨none, some (.str d)⟩ (-1)).length ≤ k + 1 := by
  rw [vectorSearch_str_eq]
  have h1 := length_dedupFirstBy_le (fun r : SearchResult => r.id)
    (((dbStore db).search k [Cond.docId (.str d)]).map scoredToResult ++
      ((((dbStore db).scroll 1 [Cond.docId (.str d), Cond.chunkIndex 0]).head?).map
        rawToResult).toList)
  have h2 := qdrantSearch_len_le db k [Cond.docId (.str d)]
  have h3 : ((((dbStore db).scroll 1 [Cond.docId (.str d), Cond.chunkIndex 0]).head?).map
      rawToResult).toList.length ≤ 1 := by
    cases ((dbStore db).scroll 1 [Cond.docId (.str d), Cond.chunkIndex 0]).head? <;> simp
  simp only [List.length_append, List.length_map] at h1 ⊢
  have h2' : ((dbStore db).search k [Cond.docId (.str d)]).length ≤ k := h2
  omega

theorem vectorSearch_str_header {db : VectorDB} {d : String}
    (hnodup : (db.map fun p => p.id).Nodup) {p : Point} (hp : p ∈ db)
    (hpd : p.payload.doc_id = some d) (hpi : p.payload.chunk_index = some 0)
    (k : Nat) :
    ∃ r ∈ vectorSearch (dbStore db) k ⟨none, some (.str d)⟩ (-1),
      r.payload.doc_id = some d ∧ r.payload.chunk_index = some 0 := by
  have hpcond : (fun q : Point =>
      ([Cond.docId (.str d), Cond.chunkIndex 0]).all (matchesCond q.payload)) p = true := by
    simp [matchesCond, hpd, hpi]
  have hfilter : p ∈ db.filter fun q =>
      ([Cond.docId (.str d), Cond.chunkIndex 0]).all (matchesCond q.payload) :=
    List.mem_filter.mpr ⟨hp, hpcond⟩
  have hne : (db.filter fun q =>
      ([Cond.docId (.str d), Cond.chunkIndex 0]).all (matchesCond q.payload)) ≠ [] :=
    List.ne_nil_of_mem hfilter
  cases hf : db.filter fun q =>
      ([Cond.docId (.str d), Cond.chunkIndex 0]).all (matchesCond q.payload) with
  | nil => exact absurd hf hne
  | cons h0 t =>
    have hh0 : h0 ∈ db.filter fun q =>
        ([Cond.docId (.str d), Cond.chunkIndex 0]).all (matchesCond q.payload) := by
      rw [hf]
      exact List.mem_cons_self _ _
    have hh0f := List.mem_filter.mp hh0
    have hh0db : h0 ∈ db := hh0f.1
    have hh0c : h0.payload.doc_id = some d ∧ h0.payload.chunk_index = some 0 := by
      have := hh0f.2
      simp only [List.all_cons, List.all_nil, Bool.and_true, Bool.and_eq_true,
        matchesCond, decide_eq_true_eq] at this
      exact this
    have hscroll : qdrantScroll db 1 [Cond.docId (.str d), Cond.chunkIndex 0] =
        [⟨h0.id, h0.payload⟩] := by
      unfold qdrantScroll
      rw [hf]
      rfl
    have hr0mem : rawToResult ⟨h0.id, h0.payload⟩ ∈
        ((dbStore db).search k [Cond.docId (.str d)]).map scoredToResult ++
          ((((dbStore db).scroll 1 [Cond.docId (.str d), Cond.chunkIndex 0]).head?).map
            rawToResult).toList := by
      apply List.mem_append.mpr
      right
      have : (dbStore db).scroll 1 [Cond.docId (.str d), Cond.chunkIndex 0] =
          [⟨h0.id, h0.payload⟩] := hscroll
      rw [this]
      simp
    obtain ⟨r, hr, hrid⟩ := dedupFirstBy_exists_key (fun r : SearchResult => r.id) hr0mem
    have hrmem : r ∈ vectorSearch (dbStore db) k ⟨none, some (.str d)⟩ (-1) := by
      rw [vectorSearch_str_eq]
      exact hr
    obtain ⟨⟨p', hp', hid', hpay'⟩, _⟩ := vectorSearch_str_mem hrmem
    have hidh : p'.id = h0.id := by
      rw [← hid']
      exact hrid
    have hpeq : p' = h0 :=
      List.inj_on_of_nodup_map hnodup hp' hh0db hidh
    refine ⟨r, hrmem, ?_, ?_⟩
    · rw [hpay', hpeq]
      exact hh0c.1
    · rw [hpay', hpeq]
      exact hh0c.2

theorem vectorSearch_nofilter_mem {db : VectorDB} {r : SearchResult}
    (h : r ∈ vectorSearch (dbStore db) 100 noFilters (-1)) :
    ∃ p ∈ db, r.id = p.id ∧ r.payload = p.payload := by
  rw [vectorSearch_nofilter_eq] at h
  have h2 := dedupFirstBy_subset _ h
  rcases List.mem_append.mp h2 with hs | hh
  · obtain ⟨sp, hsp, rfl⟩ := List.mem_map.mp hs
    obtain ⟨p, hp, hid, hpay, _⟩ := qdrantSearch_mem hsp
    exact ⟨p, hp, hid, hpay⟩
  · cases hho : (dbStore db).scroll 1 [Cond.chunkIndex 0] |>.head? with
    | none => rw [hho] at hh; cases hh
    | some rp =>
      rw [hho] at hh
      have hh' : r = rawToResult rp := by simpa using hh
      subst hh'
      obtain ⟨p, hp, hid, hpay, _⟩ := qdrantScroll_mem (headq_mem hho)
      exact ⟨p, hp, hid, hpay⟩

theorem vectorSearch_nofilter_complete {db : VectorDB} (hlen : db.length ≤ 100)
    (hnodup : (db.map fun p => p.id).Nodup) {p : Point} (hp : p ∈ db) :
    ∃ r ∈ vectorSearch (dbStore db) 100 noFilters (-1), r.payload = p.payload := by
  have hfilter : (db.filter fun q => ([] : List Cond).all (matchesCond q.payload)) = db := by
    simp
  have hsp : scoredToResult ⟨p.id, p.sim, p.payload⟩ ∈
      ((dbStore db).search 100 []).map scoredToResult := by
    apply List.mem_map_of_mem
    show ⟨p.id, p.sim, p.payload⟩ ∈ qdrantSearch db 100 []
    unfold qdrantSearch
    rw [hfilter]
    have htake : (List.insertionSort simGe db).take 100 = List.insertionSort simGe db :=
      List.take_of_length_le (by rw [List.length_insertionSort]; exact hlen)
    rw [htake]
    exact List.mem_map_of_mem _ ((List.mem_insertionSort simGe).mpr hp)
  have hcomb : scoredToResult ⟨p.id, p.sim, p.payload⟩ ∈
      ((dbStore db).search 100 []).map scoredToResult ++
        ((((dbStore db).scroll 1 [Cond.chunkIndex 0]).head?).map rawToResult).toList :=
    List.mem_append.mpr (Or.inl hsp)
  obtain ⟨r, hr, hrid⟩ := dedupFirstBy_exists_key (fun r : SearchResult => r.id) hcomb
  have hrmem : r ∈ vectorSearch (dbStore db) 100 noFilters (-1) := by
    rw [vectorSearch_nofilter_eq]
    exact hr
  obtain ⟨p', hp', hid', hpay'⟩ := vectorSearch_nofilter_mem hrmem
  have hpeq : p' = p := List.inj_on_of_nodup_map hnodup hp' hp (by rw [← hid']; exact hrid)
  exact ⟨r, hrmem, by rw [hpay', hpeq]⟩

/-! ## Lemmas: the route handler -/

theorem topKOf_pos (env : Env) (req : QueryRequest) : 1 ≤ (topKOf env req).toNat := by
  unfold topKOf
  omega

theorem ragChunksOf_ne_nil {k : Nat} {s : List SearchResult} (hk : 1 ≤ k)
    (hs : s ≠ []) : ragChunksOf k s ≠ [] := by
  unfold ragChunksOf orderedChunksOf
  intro h
  have hlen := congrArg List.length h
  simp only [List.length_map, List.length_take, List.length_insertionSort,
    List.length_nil] at hlen
  have : s.length ≠ 0 := fun h0 => hs (List.length_eq_zero.mp h0)
  omega

theorem finalFiltersOf_docid (scope : String) (docId : Option String)
    (f : VectorSearchFilters) (x : Option FVal) :
    finalFiltersOf scope docId { f with doc_id := x } = finalFiltersOf scope docId f := by
  cases f with
  | mk sf di =>
    unfold finalFiltersOf
    by_cases h : scope = "current_file" <;> simp [h]

theorem handleQuery_content (env : Env) (patterns : List (String → Bool))
    (store : Store) (embedF : String → Except Unit Unit)
    (llm : String → List RAGChunk → Except Unit String)
    (merge : String → List PerDocumentAnswer → Except Unit String)
    (nm : String → Option String) (req : QueryRequest) (q : String)
    (hq : req.query = some q)
    (hnq : normalizeQuery q ≠ "")
    (hint : detectQueryIntent patterns (normalizeQuery q) ≠ .metadata)
    (hsc : ¬(effScope req ≠ "current_file" ∧ effScope req ≠ "all_files"))
    (hdoc : ¬(effScope req = "current_file" ∧ strTrim (req.doc_id.getD "") = ""))
    (hembed : embedF (normalizeQuery q) = .ok ()) :
    handleQuery env patterns store embedF llm merge nm req =
      contentStage env store llm merge nm (normalizeQuery q) (effScope req)
        req.doc_id req.debug (topKOf env req)
        (finalFiltersOf (effScope req) req.doc_id req.filters) := by
  unfold handleQuery
  rw [hq]
  simp only [if_neg hnq, if_neg hint, if_neg hsc, if_neg hdoc, hembed]

theorem contentStage_all_filtered (env : Env) (store : Store)
    (llm : String → List RAGChunk → Except Unit String)
    (merge : String → List PerDocumentAnswer → Except Unit String)
    (nm : String → Option String) (nq scope : String) (docId : Option String)
    (dbg : Bool) (topK : Int) (ff : VectorSearchFilters)
    (hth : ∀ r ∈ searchStage store scope topK.toNat ff,
        r.score.all (fun v =>
          decide (v < env.MIN_RETRIEVAL_SCORE.getD MIN_SCORE_DEFAULT)) = true) :
    contentStage env store llm merge nm nq scope docId dbg topK ff =
      .okContent ⟨nq, scope, FALLBACK_ANSWER, [], none⟩ := by
  have hsafe : safeFilter (env.MIN_RETRIEVAL_SCORE.getD MIN_SCORE_DEFAULT)
      (searchStage store scope topK.toNat ff) = [] := by
    apply List.filter_eq_nil_iff.mpr
    intro r hr
    have hra := hth r hr
    cases hsc : r.score with
    | none => simp
    | some v =>
      rw [hsc] at hra
      simp only [Option.all_some, decide_eq_true_eq] at hra
      simp only [decide_eq_true_eq]
      exact not_le.mpr hra
  unfold contentStage
  by_cases hsr : searchStage store scope topK.toNat ff = []
  · rw [if_pos hsr]
  · rw [if_neg hsr, if_pos hsafe]

theorem contentStage_map_fail (env : Env) (store : Store)
    (llm : String → List RAGChunk → Except Unit String)
    (merge : String → List PerDocumentAnswer → Except Unit String)
    (nm : String → Option String) (nq : String) (docId : Option String)
    (dbg : Bool) (topK : Int) (ff : VectorSearchFilters)
    (htopk : 1 ≤ topK.toNat)
    (hsafe : safeFilter (env.MIN_RETRIEVAL_SCORE.getD MIN_SCORE_DEFAULT)
        (searchStage store "all_files" topK.toNat ff) ≠ [])
    (hmulti : 1 < (groupByDoc (ragChunksOf topK.toNat
        (safeFilter (env.MIN_RETRIEVAL_SCORE.getD MIN_SCORE_DEFAULT)
          (searchStage store "all_files" topK.toNat ff)))).length)
    (hfail : ∃ g ∈ groupByDoc (ragChunksOf topK.toNat
        (safeFilter (env.MIN_RETRIEVAL_SCORE.getD MIN_SCORE_DEFAULT)
          (searchStage store "all_files" topK.toNat ff))), llm nq g.2 = .error ()) :
    contentStage env store llm merge nm nq "all_files" docId dbg topK ff =
      .serverError "Failed to process query" := by
  have hsr : searchStage store "all_files" topK.toNat ff ≠ [] := by
    intro h
    exact hsafe (by rw [h]; rfl)
  have hrag : ragChunksOf topK.toNat
      (safeFilter (env.MIN_RETRIEVAL_SCORE.getD MIN_SCORE_DEFAULT)
        (searchStage store "all_files" topK.toNat ff)) ≠ [] :=
    ragChunksOf_ne_nil htopk hsafe
  obtain ⟨g, hg, hgf⟩ := hfail
  have hmap : mapPhase llm nq (groupByDoc (ragChunksOf topK.toNat
      (safeFilter (env.MIN_RETRIEVAL_SCORE.getD MIN_SCORE_DEFAULT)
        (searchStage store "all_files" topK.toNat ff)))) = .error () :=
    mapPhase_error_of_mem llm nq _ g hg hgf
  have husd : ("all_files" = "all_files" ∧
      ((groupByDoc (ragChunksOf topK.toNat
        (safeFilter (env.MIN_RETRIEVAL_SCORE.getD MIN_SCORE_DEFAULT)
          (searchStage store "all_files" topK.toNat ff)))).map Prod.fst).length > 1) := by
    refine ⟨rfl, ?_⟩
    rw [List.length_map]
    exact hmulti
  unfold contentStage
  rw [if_neg hsr, if_neg hsafe, if_neg hrag,
    if_neg (by
      intro hc
      exact absurd hc.1 (by decide))]
  dsimp only
  rw [if_pos husd, hmap]

/-! ## Claims -/

/-- C1: for a multi-document ranked chunk set (every chunk carrying a
non-empty `doc_id`), the Map phase produces exactly one per-document answer
per distinct `document_id` of the ranked chunk set (the answers' `doc_id`s
are pairwise distinct), and the set of `doc_id`s handed to Reduce — the
successful `mapPhase` output, which `contentStage` passes to `reducePhase`
unfiltered — equals exactly the set of distinct `doc_id`s of the ranked
chunks: no document is silently dropped before Reduce. -/
theorem C1_map_reduce_no_doc_dropped
    (llm : String → List RAGChunk → Except Unit String) (q : String)
    (chunks : List RAGChunk) (answers : List PerDocumentAnswer)
    (hvalid : ∀ c ∈ chunks, c.doc_id ≠ none ∧ c.doc_id ≠ some "")
    (hmulti : 1 < (chunks.filterMap (fun c => c.doc_id)).toFinset.card)
    (hok : mapPhase llm q (groupByDoc chunks) = .ok answers) :
    (answers.map (fun a => a.doc_id)).Nodup ∧
      (answers.map (fun a => a.doc_id)).toFinset =
        (chunks.filterMap (fun c => c.doc_id)).toFinset := by
  have hids := mapPhase_ok_docIds llm q (groupByDoc chunks) answers hok
  rw [hids]
  refine ⟨groupByDoc_keys_nodup chunks, ?_⟩
  ext x
  simp only [List.mem_toFinset]
  rw [mem_groupByDoc_keys, ← map_docKey_eq_filterMap chunks hvalid]

/-- Witness for C1 at a concrete two-document chunk set. -/
theorem C1_map_reduce_no_doc_dropped_witness :
    (∀ c ∈ [wChunkA, wChunkB], c.doc_id ≠ none ∧ c.doc_id ≠ some "") ∧
    1 < (([wChunkA, wChunkB].filterMap (fun c => c.doc_id)).toFinset.card) ∧
    mapPhase wLlm "q" (groupByDoc [wChunkA, wChunkB]) = .ok wMapAnswers ∧
    ((wMapAnswers.map (fun a => a.doc_id)).Nodup ∧
      (wMapAnswers.map (fun a => a.doc_id)).toFinset =
        ([wChunkA, wChunkB].filterMap (fun c => c.doc_id)).toFinset) :=
  ⟨by decide, by decide, by decide,
    C1_map_reduce_no_doc_dropped wLlm "q" [wChunkA, wChunkB] wMapAnswers
      (by decide) (by decide) (by decide)⟩

/-- C2 (counterexample): at the concrete store `wDbLead`, a `current_file`
query for document `A` retrieves the lead chunk (position 0, fetched by
scroll without a score), yet the chunk set supplied to answer generation
does not contain it — refuting the claim that the lead chunk reaches the
LLM step regardless of its similarity score. -/
theorem C2_lead_chunk_counterexample :
    (∃ pt ∈ wDbLead, pt.payload.doc_id = some "A" ∧
        pt.payload.chunk_index = some 0 ∧ pt.payload.text = some "HEADER") ∧
    (∃ r ∈ searchStage (dbStore wDbLead) (effScope wReqCur)
        (topKOf wEnv wReqCur).toNat
        (finalFiltersOf (effScope wReqCur) wReqCur.doc_id wReqCur.filters),
        r.payload.chunk_index = some 0) ∧
    (∀ c ∈ ragChunksOf (topKOf wEnv wReqCur).toNat
        (safeFilter (wEnv.MIN_RETRIEVAL_SCORE.getD MIN_SCORE_DEFAULT)
          (searchStage (dbStore wDbLead) (effScope wReqCur)
            (topKOf wEnv wReqCur).toNat
            (finalFiltersOf (effScope wReqCur) wReqCur.doc_id wReqCur.filters))),
        c.text ≠ "HEADER") := by
  decide

/-- C2 (amended): for a `current_file` query whose target document has a
chunk at position 0, the retrieval result set returned by `vectorSearch`
always contains a chunk of that document at position 0; but a chunk is
supplied to the answer-generation step only if it carries a numeric score
at or above the minimum retrieval score, so a lead chunk fetched only by
the score-less scroll operation is dropped before the LLM call. -/
theorem C2_lead_chunk_retrieved_but_score_gated (db : VectorDB) (d : String)
    (hnodup : (db.map fun p => p.id).Nodup) (p : Point) (hp : p ∈ db)
    (hpd : p.payload.doc_id = some d) (hpi : p.payload.chunk_index = some 0)
    (k : Nat) :
    (∃ r ∈ vectorSearch (dbStore db) k ⟨none, some (.str d)⟩ (-1),
        r.payload.doc_id = some d ∧ r.payload.chunk_index = some 0) ∧
    (∀ (minScore : ℚ) (kk : Nat) (c : RAGChunk),
        c ∈ ragChunksOf kk (safeFilter minScore
          (vectorSearch (dbStore db) k ⟨none, some (.str d)⟩ (-1))) →
        ∃ v, c.score = some v ∧ minScore ≤ v) :=
  ⟨vectorSearch_str_header hnodup hp hpd hpi k,
   fun minScore kk c hc => context_score minScore kk _ c hc⟩

/-- Witness for the amended C2 over `wDbLead`. -/
theorem C2_lead_chunk_retrieved_but_score_gated_witness :
    ((wDbLead.map fun p => p.id).Nodup) ∧
    (⟨"id0", q10, ⟨some "HEADER", some "A", some "a.pdf", some 0⟩⟩ : Point) ∈ wDbLead ∧
    (∃ r ∈ vectorSearch (dbStore wDbLead) 1 ⟨none, some (.str "A")⟩ (-1),
        r.payload.doc_id = some "A" ∧ r.payload.chunk_index = some 0) :=
  ⟨by decide, by decide,
    (C2_lead_chunk_retrieved_but_score_gated wDbLead "A" (by decide)
      ⟨"id0", q10, ⟨some "HEADER", some "A", some "a.pdf", some 0⟩⟩
      (by decide) (by decide) (by decide) 1).1⟩

/-- C3: the Reduce selection logic is deterministic (stated for every merge
oracle): if every per-document answer matches the not-found classifier
(case-insensitive substring match against `FALLBACK_PHRASES`, empty answers
counting as not found), the Reduce output is exactly the canonical fallback
string with the merge model not invoked; and if exactly one answer does not
match the classifier, that answer is returned verbatim with no merge-model
call. -/
theorem C3_reduce_shortcuts
    (merge : String → List PerDocumentAnswer → Except Unit String)
    (q : String) (answers : List PerDocumentAnswer) :
    ((∀ i ∈ answers, notFoundJS i = true) →
        reducePhase merge q answers = .ok (FALLBACK_ANSWER, false)) ∧
    (∀ r : PerDocumentAnswer, answers.filter (fun i => !(notFoundJS i)) = [r] →
        reducePhase merge q answers = .ok (r.answer, false)) := by
  constructor
  · intro h
    unfold reducePhase
    rw [if_pos (List.all_eq_true.mpr h)]
  · intro r hflt
    have hre : answers.filter realJS = [r] := by
      rw [List.filter_congr fun i _ => realJS_eq i]
      exact hflt
    have hr' : r ∈ answers.filter realJS := by
      rw [hre]
      exact List.mem_singleton.mpr rfl
    have hrmem := List.mem_filter.mp hr'
    have hnall : ¬ (answers.all notFoundJS = true) := by
      intro hall
      have h1 := List.all_eq_true.mp hall r hrmem.1
      have h2 := hrmem.2
      rw [realJS_eq, h1] at h2
      cases h2
    unfold reducePhase
    rw [if_neg hnall]
    simp only [hre]

/-- Witness for C3: the all-not-found shortcut and the single-real-answer
shortcut, each at a concrete three-answer Reduce input. -/
theorem C3_reduce_shortcuts_witness :
    (∀ i ∈ wAnswersAllNF, notFoundJS i = true) ∧
    reducePhase wMerge "q" wAnswersAllNF = .ok (FALLBACK_ANSWER, false) ∧
    (wAnswersOneReal.filter (fun i => !(notFoundJS i)) = [wRealAnswer]) ∧
    reducePhase wMerge "q" wAnswersOneReal = .ok (wRealAnswer.answer, false) :=
  ⟨by decide,
    (C3_reduce_shortcuts wMerge "q" wAnswersAllNF).1 (by decide),
    by decide,
    (C3_reduce_shortcuts wMerge "q" wAnswersOneReal).2 wRealAnswer (by decide)⟩

/-- C9: the threshold-surviving chunks are ordered primarily by `doc_id`
(lexical, ascending) and secondarily by `chunk_index` ascending, and only
then truncated to `topK` (`orderedChunksOf` is exactly sort-then-take, and
its output is sorted under `chunkLe`); consequently each document's chunks
form a contiguous group (no interleaving) sorted by position, and the
ordering is a deterministic function of its input. -/
theorem C9_ordered_contiguous (safeResults : List SearchResult) (k : Nat) :
    (orderedChunksOf k safeResults).Pairwise chunkLe ∧
    (∀ i j l : Fin (orderedChunksOf k safeResults).length, i ≤ j → j ≤ l →
        docStr ((orderedChunksOf k safeResults).get i) =
          docStr ((orderedChunksOf k safeResults).get l) →
        docStr ((orderedChunksOf k safeResults).get j) =
          docStr ((orderedChunksOf k safeResults).get i)) ∧
    (∀ i j : Fin (orderedChunksOf k safeResults).length, i ≤ j →
        docStr ((orderedChunksOf k safeResults).get i) =
          docStr ((orderedChunksOf k safeResults).get j) →
        posOf ((orderedChunksOf k safeResults).get i) ≤
          posOf ((orderedChunksOf k safeResults).get j)) := by
  have hsorted : (orderedChunksOf k safeResults).Pairwise chunkLe := by
    haveI : IsTotal SearchResult chunkLe := ⟨chunkLe_total⟩
    haveI : IsTrans SearchResult chunkLe := ⟨chunkLe_trans⟩
    have hs : (List.insertionSort chunkLe safeResults).Pairwise chunkLe :=
      List.sorted_insertionSort chunkLe safeResults
    exact List.Pairwise.sublist (List.take_sublist k _) hs
  have hget := List.pairwise_iff_get.mp hsorted
  refine ⟨hsorted, ?_, ?_⟩
  · intro i j l hij hjl hil
    rcases eq_or_lt_of_le hij with rfl | hij'
    · rfl
    rcases eq_or_lt_of_le hjl with rfl | hjl'
    · exact hil.symm
    have h1 := hget i j hij'
    have h2 := hget j l hjl'
    rcases h1 with h1 | ⟨h1, _⟩
    · rcases h2 with h2 | ⟨h2, _⟩
      · have h3 := strLtB_trans h1 h2
        rw [hil, strLtB_irrefl] at h3
        cases h3
      · rw [h2, ← hil] at h1
        rw [strLtB_irrefl] at h1
        cases h1
    · exact h1.symm
  · intro i j hij heq
    rcases eq_or_lt_of_le hij with rfl | hij'
    · exact le_refl _
    rcases hget i j hij' with h | ⟨_, h⟩
    · rw [heq, strLtB_irrefl] at h
      cases h
    · exact h

/-- Witness for C9: within the single document group of a concrete ordered
list, positions are ascending. -/
theorem C9_ordered_contiguous_witness :
    posOf ((orderedChunksOf 2 wSafe).get ⟨0, by decide⟩) ≤
      posOf ((orderedChunksOf 2 wSafe).get ⟨1, by decide⟩) :=
  (C9_ordered_contiguous wSafe 2).2.2 ⟨0, by decide⟩ ⟨1, by decide⟩
    (by decide) (by decide)

/-- C10: every chunk that reaches the answer-generation context carries a
numeric relevance score at or above the minimum retrieval score; any
retrieved point whose score is missing — in particular a scroll-fetched
lead chunk, which carries none — is filtered out before the context is
built. -/
theorem C10_context_chunks_scored (minScore : ℚ) (k : Nat)
    (rs : List SearchResult) (c : RAGChunk)
    (hc : c ∈ ragChunksOf k (safeFilter minScore rs)) :
    ∃ v, c.score = some v ∧ minScore ≤ v :=
  context_score minScore k rs c hc

/-- C4: for an `all_files` content query over a store of three distinct
documents (each with at least one chunk, all within the 100-point
enumeration window), the balanced retrieval — one per-document similarity
search capped at `max(2, floor(topK / count))`, concatenated, sorted by
score descending and truncated to `2 × topK` — returns, for `topK = 6`, at
least one chunk from each of the three documents in the pre-ranking result
set. -/
theorem C4_balanced_retrieval (db : VectorDB) (d1 d2 d3 : String)
    (hnodup : (db.map fun p => p.id).Nodup)
    (hlen : db.length ≤ 100)
    (hne : ∀ d ∈ [d1, d2, d3], d ≠ "")
    (h12 : d1 ≠ d2) (h13 : d1 ≠ d3) (h23 : d2 ≠ d3)
    (hall : ∀ p ∈ db, p.payload.doc_id = some d1 ∨ p.payload.doc_id = some d2 ∨
        p.payload.doc_id = some d3)
    (hpres : ∀ d ∈ [d1, d2, d3], ∃ p ∈ db, p.payload.doc_id = some d) :
    ∀ d ∈ [d1, d2, d3], ∃ r ∈ allFilesSearch (dbStore db) 6,
      r.payload.doc_id = some d := by
  have huidsIn : ∀ x ∈ [d1, d2, d3], x ∈ enumDocIds (dbStore db) := by
    intro x hx
    unfold enumDocIds
    rw [mem_dedupFirst]
    apply List.mem_filter.mpr
    refine ⟨?_, decide_eq_true (hne x hx)⟩
    apply List.mem_filterMap.mpr
    obtain ⟨p, hp, hpd⟩ := hpres x hx
    obtain ⟨r, hr, hrp⟩ := vectorSearch_nofilter_complete hlen hnodup hp
    exact ⟨r, hr, by rw [hrp, hpd]⟩
  have hsub : ∀ x ∈ enumDocIds (dbStore db), x ∈ [d1, d2, d3] := by
    intro x hx
    unfold enumDocIds at hx
    rw [mem_dedupFirst] at hx
    have hx2 := List.mem_filter.mp hx
    obtain ⟨r, hr, hrd⟩ := List.mem_filterMap.mp hx2.1
    obtain ⟨p, hp, _, hpay⟩ := vectorSearch_nofilter_mem hr
    have hthis := hall p hp
    rw [← hpay] at hthis
    rcases hthis with h | h | h <;> rw [hrd] at h <;> injection h with h2 <;>
      subst h2 <;> simp
  have hnod : (enumDocIds (dbStore db)).Nodup := dedupFirst_nodup _
  have h3nod : ([d1, d2, d3] : List String).Nodup := by simp [h12, h13, h23]
  have hlen3 : (enumDocIds (dbStore db)).length = 3 := by
    have h1 : (enumDocIds (dbStore db)).toFinset =
        ([d1, d2, d3] : List String).toFinset := by
      ext x
      simp only [List.mem_toFinset]
      exact ⟨hsub x, huidsIn x⟩
    have h2 := List.toFinset_card_of_nodup hnod
    have h4 := List.toFinset_card_of_nodup h3nod
    rw [← h2, h1, h4]
    rfl
  intro d hd
  have hdmem := huidsIn d hd
  have hne' : enumDocIds (dbStore db) ≠ [] := List.ne_nil_of_mem hdmem
  unfold allFilesSearch
  dsimp only
  rw [if_neg hne']
  simp only [hlen3]
  obtain ⟨p, hp, hpd⟩ := hpres d hd
  have hvne := vectorSearch_str_ne_nil (k := max 2 (6 / 3)) (by norm_num) hp hpd
  cases hv : vectorSearch (dbStore db) (max 2 (6 / 3)) ⟨none, some (.str d)⟩ (-1) with
  | nil => exact absurd hv hvne
  | cons r rest =>
    have hrmem0 : r ∈ vectorSearch (dbStore db) (max 2 (6 / 3))
        ⟨none, some (.str d)⟩ (-1) := by
      rw [hv]
      exact List.mem_cons_self _ _
    have hrdoc := (vectorSearch_str_mem hrmem0).2
    have hrall : r ∈ (enumDocIds (dbStore db)).flatMap fun d' =>
        vectorSearch (dbStore db) (max 2 (6 / 3)) ⟨none, some (.str d')⟩ (-1) :=
      List.mem_flatMap.mpr ⟨d, hdmem, hrmem0⟩
    have hbound : ((enumDocIds (dbStore db)).flatMap fun d' =>
        vectorSearch (dbStore db) (max 2 (6 / 3)) ⟨none, some (.str d')⟩ (-1)).length
          ≤ 9 := by
      have hb := flatMap_length_le (enumDocIds (dbStore db))
        (fun d' => vectorSearch (dbStore db) (max 2 (6 / 3)) ⟨none, some (.str d')⟩ (-1))
        3 (fun x _ => vectorSearch_str_len_le db (max 2 (6 / 3)) x)
      rw [hlen3] at hb
      omega
    have htake : (List.insertionSort scoreDescLe
        ((enumDocIds (dbStore db)).flatMap fun d' =>
          vectorSearch (dbStore db) (max 2 (6 / 3)) ⟨none, some (.str d')⟩ (-1))).take
            (6 * 2) =
        List.insertionSort scoreDescLe
          ((enumDocIds (dbStore db)).flatMap fun d' =>
            vectorSearch (dbStore db) (max 2 (6 / 3)) ⟨none, some (.str d')⟩ (-1)) := by
      apply List.take_of_length_le
      rw [List.length_insertionSort]
      omega
    refine ⟨r, ?_, hrdoc⟩
    rw [htake]
    exact (List.mem_insertionSort scoreDescLe).mpr hrall

/-- Witness for C4 over the three-document store `wDbThree`. -/
theorem C4_balanced_retrieval_witness :
    (∀ d ∈ ["A", "B", "C"], ∃ p ∈ wDbThree, p.payload.doc_id = some d) ∧
    (∃ r ∈ allFilesSearch (dbStore wDbThree) 6, r.payload.doc_id = some "A") ∧
    (∃ r ∈ allFilesSearch (dbStore wDbThree) 6, r.payload.doc_id = some "B") ∧
    (∃ r ∈ allFilesSearch (dbStore wDbThree) 6, r.payload.doc_id = some "C") :=
  ⟨by decide,
    C4_balanced_retrieval wDbThree "A" "B" "C" (by decide) (by decide) (by decide)
      (by decide) (by decide) (by decide) (by decide) (by decide) "A" (by decide),
    C4_balanced_retrieval wDbThree "A" "B" "C" (by decide) (by decide) (by decide)
      (by decide) (by decide) (by decide) (by decide) (by decide) "B" (by decide),
    C4_balanced_retrieval wDbThree "A" "B" "C" (by decide) (by decide) (by decide)
      (by decide) (by decide) (by decide) (by decide) (by decide) "C" (by decide)⟩

/-- C5: for every validated content query whose retrieved chunks all lack a
numeric score at or above the configured minimum retrieval score, the route
responds with HTTP 200 (`okContent`), the answer equals exactly the
canonical fallback string, and `sources` is empty — never an error
response. -/
theorem C5_below_threshold_fallback (env : Env) (patterns : List (String → Bool))
    (store : Store) (embedF : String → Except Unit Unit)
    (llm : String → List RAGChunk → Except Unit String)
    (merge : String → List PerDocumentAnswer → Except Unit String)
    (nm : String → Option String) (req : QueryRequest) (q : String)
    (hq : req.query = some q)
    (hnq : normalizeQuery q ≠ "")
    (hint : detectQueryIntent patterns (normalizeQuery q) ≠ .metadata)
    (hsc : ¬(effScope req ≠ "current_file" ∧ effScope req ≠ "all_files"))
    (hdoc : ¬(effScope req = "current_file" ∧ strTrim (req.doc_id.getD "") = ""))
    (hembed : embedF (normalizeQuery q) = .ok ())
    (hth : ∀ r ∈ searchStage store (effScope req) (topKOf env req).toNat
        (finalFiltersOf (effScope req) req.doc_id req.filters),
        r.score.all (fun v =>
          decide (v < env.MIN_RETRIEVAL_SCORE.getD MIN_SCORE_DEFAULT)) = true) :
    handleQuery env patterns store embedF llm merge nm req =
      .okContent ⟨normalizeQuery q, effScope req, FALLBACK_ANSWER, [], none⟩ := by
  rw [handleQuery_content env patterns store embedF llm merge nm req q hq hnq hint
    hsc hdoc hembed]
  exact contentStage_all_filtered env store llm merge nm (normalizeQuery q)
    (effScope req) req.doc_id req.debug (topKOf env req)
    (finalFiltersOf (effScope req) req.doc_id req.filters) hth

/-- Witness for C5 over a store whose only chunk scores `0.1 < 0.15`. -/
theorem C5_below_threshold_fallback_witness :
    (∀ r ∈ searchStage (dbStore wDbLow) (effScope wReqAll)
        (topKOf wEnv wReqAll).toNat
        (finalFiltersOf (effScope wReqAll) wReqAll.doc_id wReqAll.filters),
        r.score.all (fun v =>
          decide (v < wEnv.MIN_RETRIEVAL_SCORE.getD MIN_SCORE_DEFAULT)) = true) ∧
    handleQuery wEnv [] (dbStore wDbLow) wEmbed wLlm wMerge wNameMatch wReqAll =
      .okContent ⟨normalizeQuery "what is it", effScope wReqAll, FALLBACK_ANSWER,
        [], none⟩ :=
  ⟨by decide,
    C5_below_threshold_fallback wEnv [] (dbStore wDbLow) wEmbed wLlm wMerge
      wNameMatch wReqAll "what is it" rfl (by decide) (by decide) (by decide)
      (by decide) (by decide) (by decide)⟩

/-- C6: for every query whose normalized text matches one of the metadata
patterns, the route answers with intent `"metadata"`, a document list with
pairwise-distinct `document_id`s and `count` equal to its length, and the
response is independent of the similarity-search operation, the embedding
provider and the language model — no embedding, similarity-search or LLM
call can influence it. -/
theorem C6_metadata_no_rag (env : Env) (patterns : List (String → Bool))
    (store : Store) (embedF : String → Except Unit Unit)
    (llm : String → List RAGChunk → Except Unit String)
    (merge : String → List PerDocumentAnswer → Except Unit String)
    (nm : String → Option String) (req : QueryRequest) (q : String)
    (hq : req.query = some q)
    (hnq : normalizeQuery q ≠ "")
    (hne : strLower (strTrim (normalizeQuery q)) ≠ "")
    (hpat : ∃ p ∈ patterns, p (strLower (strTrim (normalizeQuery q))) = true) :
    handleQuery env patterns store embedF llm merge nm req =
      .okMetadata ⟨normalizeQuery q, "metadata", getDocumentMetadata store,
        (getDocumentMetadata store).length⟩ ∧
    ((getDocumentMetadata store).map (fun d => d.doc_id)).Nodup ∧
    (∀ (search' : Nat → List Cond → List ScoredPoint)
        (embedF' : String → Except Unit Unit)
        (llm' : String → List RAGChunk → Except Unit String)
        (merge' : String → List PerDocumentAnswer → Except Unit String)
        (nm' : String → Option String),
      handleQuery env patterns ⟨search', store.scroll⟩ embedF' llm' merge' nm' req =
        handleQuery env patterns store embedF llm merge nm req) := by
  obtain ⟨p, hp, hpp⟩ := hpat
  have hdet : detectQueryIntent patterns (normalizeQuery q) = .metadata := by
    unfold detectQueryIntent
    rw [if_neg hnq, if_neg hne, if_pos (List.any_eq_true.mpr ⟨p, hp, hpp⟩)]
  have hrun : ∀ (st : Store) (e : String → Except Unit Unit)
      (l : String → List RAGChunk → Except Unit String)
      (m : String → List PerDocumentAnswer → Except Unit String)
      (n : String → Option String),
      handleQuery env patterns st e l m n req =
        .okMetadata ⟨normalizeQuery q, "metadata", getDocumentMetadata st,
          (getDocumentMetadata st).length⟩ := by
    intro st e l m n
    unfold handleQuery
    rw [hq]
    simp only [if_neg hnq, if_pos hdet]
  refine ⟨hrun store embedF llm merge nm, getDocumentMetadata_nodup store, ?_⟩
  intro search' embedF' llm' merge' nm'
  rw [hrun store embedF llm merge nm, hrun ⟨search', store.scroll⟩ embedF' llm' merge' nm']
  unfold getDocumentMetadata
  rfl

/-- Witness for C6 at the query `"List all   documents"` over a
three-document store. -/
theorem C6_metadata_no_rag_witness :
    (∃ p ∈ wPatterns,
      p (strLower (strTrim (normalizeQuery "List all   documents"))) = true) ∧
    handleQuery wEnv wPatterns (dbStore wDbThree) wEmbed wLlm wMerge wNameMatch
        wReqMeta =
      .okMetadata ⟨normalizeQuery "List all   documents", "metadata",
        getDocumentMetadata (dbStore wDbThree),
        (getDocumentMetadata (dbStore wDbThree)).length⟩ :=
  ⟨by decide,
    (C6_metadata_no_rag wEnv wPatterns (dbStore wDbThree) wEmbed wLlm wMerge
      wNameMatch wReqMeta "List all   documents" rfl (by decide) (by decide)
      (by decide)).1⟩

/-- C7: for every validated `all_files` content query whose ranked chunks
group into more than one document, if any per-document Map LLM call fails,
the whole request fails with the HTTP 500 error response — no partial
answer assembled from the other documents is returned. -/
theorem C7_map_failure_is_500 (env : Env) (patterns : List (String → Bool))
    (store : Store) (embedF : String → Except Unit Unit)
    (llm : String → List RAGChunk → Except Unit String)
    (merge : String → List PerDocumentAnswer → Except Unit String)
    (nm : String → Option String) (req : QueryRequest) (q : String)
    (hq : req.query = some q)
    (hnq : normalizeQuery q ≠ "")
    (hint : detectQueryIntent patterns (normalizeQuery q) ≠ .metadata)
    (hscope : effScope req = "all_files")
    (hembed : embedF (normalizeQuery q) = .ok ())
    (hsafe : safeFilter (env.MIN_RETRIEVAL_SCORE.getD MIN_SCORE_DEFAULT)
        (searchStage store "all_files" (topKOf env req).toNat
          (finalFiltersOf "all_files" req.doc_id req.filters)) ≠ [])
    (hmulti : 1 < (groupByDoc (ragChunksOf (topKOf env req).toNat
        (safeFilter (env.MIN_RETRIEVAL_SCORE.getD MIN_SCORE_DEFAULT)
          (searchStage store "all_files" (topKOf env req).toNat
            (finalFiltersOf "all_files" req.doc_id req.filters))))).length)
    (hfail : ∃ g ∈ groupByDoc (ragChunksOf (topKOf env req).toNat
        (safeFilter (env.MIN_RETRIEVAL_SCORE.getD MIN_SCORE_DEFAULT)
          (searchStage store "all_files" (topKOf env req).toNat
            (finalFiltersOf "all_files" req.doc_id req.filters)))),
        llm (normalizeQuery q) g.2 = .error ()) :
    handleQuery env patterns store embedF llm merge nm req =
      .serverError "Failed to process query" := by
  have hsc : ¬(effScope req ≠ "current_file" ∧ effScope req ≠ "all_files") := by
    rw [hscope]
    intro hc
    exact hc.2 rfl
  have hdoc : ¬(effScope req = "current_file" ∧ strTrim (req.doc_id.getD "") = "") := by
    rw [hscope]
    intro hc
    exact absurd hc.1 (by decide)
  rw [handleQuery_content env patterns store embedF llm merge nm req q hq hnq hint
    hsc hdoc hembed, hscope]
  exact contentStage_map_fail env store llm merge nm (normalizeQuery q) req.doc_id
    req.debug (topKOf env req) (finalFiltersOf "all_files" req.doc_id req.filters)
    (topKOf_pos env req) hsafe hmulti hfail

/-- Witness for C7: two above-threshold documents and an always-failing
LLM. -/
theorem C7_map_failure_is_500_witness :
    (∃ g ∈ groupByDoc (ragChunksOf (topKOf wEnv wReqAll).toNat
        (safeFilter (wEnv.MIN_RETRIEVAL_SCORE.getD MIN_SCORE_DEFAULT)
          (searchStage (dbStore wDbTwo) "all_files" (topKOf wEnv wReqAll).toNat
            (finalFiltersOf "all_files" wReqAll.doc_id wReqAll.filters)))),
        wLlmFail (normalizeQuery "what is it") g.2 = .error ()) ∧
    handleQuery wEnv [] (dbStore wDbTwo) wEmbed wLlmFail wMerge wNameMatch wReqAll =
      .serverError "Failed to process query" :=
  ⟨by decide,
    C7_map_failure_is_500 wEnv [] (dbStore wDbTwo) wEmbed wLlmFail wMerge
      wNameMatch wReqAll "what is it" rfl (by decide) (by decide) (by decide)
      (by decide) (by decide) (by decide) (by decide)⟩

/-- C8: the `doc_id` filter used for retrieval is backend-authoritative and
independent of any caller-supplied `filters.doc_id`: two requests identical
except for `filters.doc_id` produce identical responses (the handler's
behaviour factors through `finalFiltersOf`, which overrides the key under
`current_file` with the request's validated `doc_id` and deletes it
otherwise). -/
theorem C8_caller_docid_filter_ignored (env : Env)
    (patterns : List (String → Bool)) (store : Store)
    (embedF : String → Except Unit Unit)
    (llm : String → List RAGChunk → Except Unit String)
    (merge : String → List PerDocumentAnswer → Except Unit String)
    (nm : String → Option String) (req : QueryRequest) (x : Option FVal) :
    (handleQuery env patterns store embedF llm merge nm
        { req with filters := { req.filters with doc_id := x } } =
      handleQuery env patterns store embedF llm merge nm req) ∧
    (∀ docId f, (finalFiltersOf "current_file" docId f).doc_id = docId.map FVal.str) ∧
    (∀ scope docId f, scope ≠ "current_file" →
      (finalFiltersOf scope docId f).doc_id = none) := by
  refine ⟨?_, ?_, ?_⟩
  · unfold handleQuery
    simp only [effScope, topKOf, finalFiltersOf_docid]
  · intro docId f
    unfold finalFiltersOf
    rw [if_pos rfl]
  · intro scope docId f h
    unfold finalFiltersOf
    rw [if_neg h]

/-- Witness for C8: the `all_files` branch deletes the caller's `doc_id`
filter. -/
theorem C8_caller_docid_filter_ignored_witness :
    handleQuery wEnv [] (dbStore wDbTwo) wEmbed wLlm wMerge wNameMatch
        { wReqAll with filters := { wReqAll.filters with doc_id := some (.str "B") } } =
      handleQuery wEnv [] (dbStore wDbTwo) wEmbed wLlm wMerge wNameMatch wReqAll ∧
    (finalFiltersOf "all_files" (some "A") noFilters).doc_id = none :=
  ⟨(C8_caller_docid_filter_ignored wEnv [] (dbStore wDbTwo) wEmbed wLlm wMerge
      wNameMatch wReqAll (some (.str "B"))).1,
    (C8_caller_docid_filter_ignored wEnv [] (dbStore wDbTwo) wEmbed wLlm wMerge
      wNameMatch wReqAll (some (.str "B"))).2.2 "all_files" (some "A") noFilters
      (by decide)⟩

/-- Witness for C10 at the concrete current-file retrieval over `wDbLead`. -/
theorem C10_context_chunks_scored_witness :
    (⟨"body text", some "A", some "a.pdf", some q90⟩ : RAGChunk) ∈
      ragChunksOf 1 (safeFilter MIN_SCORE_DEFAULT
        (searchStage (dbStore wDbLead) "current_file" 1 ⟨none, some (.str "A")⟩)) ∧
    ∃ v, (⟨"body text", some "A", some "a.pdf", some q90⟩ : RAGChunk).score
        = some v ∧ MIN_SCORE_DEFAULT ≤ v :=
  ⟨by decide,
    C10_context_chunks_scored MIN_SCORE_DEFAULT 1
      (searchStage (dbStore wDbLead) "current_file" 1 ⟨none, some (.str "A")⟩)
      ⟨"body text", some "A", some "a.pdf", some q90⟩ (by decide)⟩

end NeuralSearch
